import Mathlib

/-
Verification of the scoped key-value storage service
(`src/vs/platform/storage/common/storage.ts`).

The development embeds `AbstractStorageService` composed with the in-memory
reference backend `InMemoryStorageService`.  The two partition caches
(JavaScript `Map<string, string>`) are modelled as insertion-ordered
association lists; every mutating operation returns the new state together
with the list of events it emitted.  `JSON.stringify` / `JSON.parse` are
modelled for the one shape the service uses them at, the key-target object
`{ [key: string]: StorageTarget }` (values 0 or 1); any other text fails to
parse, matching the fail-open catch in `getKeyTargets`.  JavaScript numbers
are modelled as integers.
-/

namespace VSCodeStorage

/-- Reserved key marking whether a storage partition was freshly created
(`IS_NEW_KEY` in the source). -/
def IS_NEW_KEY : String := "__$__isNewStorageMarker"

/-- Reserved key under which the per-partition key-target map is persisted
(`TARGET_KEY` in the source). -/
def TARGET_KEY : String := "__$__targetStorageMarker"

/-- `StorageScope`: GLOBAL = 0, WORKSPACE = 1. -/
inductive StorageScope
  | GLOBAL
  | WORKSPACE
deriving DecidableEq

/-- `StorageTarget`: USER = 0, MACHINE = 1. -/
inductive StorageTarget
  | USER
  | MACHINE
deriving DecidableEq

/-- `WillSaveStateReason`: NONE = 0, SHUTDOWN = 1. -/
inductive WillSaveStateReason
  | NONE
  | SHUTDOWN
deriving DecidableEq

/-- A JavaScript value accepted by the store operations:
`string | boolean | number`, with numbers modelled as integers. -/
inductive Value
  | str (s : String)
  | bool (b : Bool)
  | num (n : Int)
deriving DecidableEq

/-- The decimal digit character for `d < 10`. -/
def digitChar : Nat → Char
  | 0 => '0'
  | 1 => '1'
  | 2 => '2'
  | 3 => '3'
  | 4 => '4'
  | 5 => '5'
  | 6 => '6'
  | 7 => '7'
  | 8 => '8'
  | 9 => '9'
  | _ => '?'

/-- Fuelled decimal digit expansion of a natural number, most significant
digit first; the fuel is an upper bound used to make the recursion
structural. -/
def natToDigitsAux : Nat → Nat → List Char
  | 0, _ => []
  | fuel + 1, n =>
    if n < 10 then [digitChar n] else natToDigitsAux fuel (n / 10) ++ [digitChar (n % 10)]

/-- Decimal digit expansion of a natural number. -/
def natToDigits (n : Nat) : List Char := natToDigitsAux (n + 1) n

/-- Decimal rendering of an integer, as JavaScript `String(value)` renders an
integral number. -/
def intToString (n : Int) : String :=
  if n < 0 then String.mk ('-' :: natToDigits n.natAbs) else String.mk (natToDigits n.natAbs)

/-- JavaScript `String(value)` for the three supported value kinds. -/
def valueToString : Value → String
  | .str s => s
  | .bool b => if b then "true" else "false"
  | .num n => intToString n

/-- Result of JavaScript `parseInt`: an integer or `NaN`. -/
inductive JsNum
  | nan
  | int (n : Int)
deriving DecidableEq

/-- Numeric value of a decimal digit character. -/
def digitVal (c : Char) : Nat := c.toNat - 48

/-- Whether a character is a decimal digit. -/
def isDigitC (c : Char) : Bool := decide (48 ≤ c.toNat) && decide (c.toNat ≤ 57)

/-- Reads an optional leading sign, returning the sign and the rest. -/
def splitSign : List Char → Bool × List Char
  | [] => (false, [])
  | c :: r => if c = '-' then (true, r) else if c = '+' then (false, r) else (false, c :: r)

/-- JavaScript `parseInt(s, 10)`: skip leading whitespace, read an optional
sign, then the longest prefix of decimal digits; `NaN` when there is none. -/
def parseIntB10 (s : String) : JsNum :=
  let sr := splitSign (s.data.dropWhile (fun c => c.isWhitespace))
  let ds := sr.2.takeWhile isDigitC
  if ds = [] then .nan
  else
    let n : Nat := ds.foldl (fun a c => a * 10 + digitVal c) 0
    .int (if sr.1 then -(n : Int) else (n : Int))

/-- Association-list lookup, modelling JavaScript `Map.get` and object
indexing. -/
def lookupL {α : Type} : List (String × α) → String → Option α
  | [], _ => none
  | (k, v) :: rest, key => if k = key then some v else lookupL rest key

/-- Association-list update, modelling `Map.set` and `obj[key] = v`:
replaces in place when present, appends when absent, preserving insertion
order. -/
def setL {α : Type} : List (String × α) → String → α → List (String × α)
  | [], key, v => [(key, v)]
  | (k, w) :: rest, key, v =>
    if k = key then (key, v) :: rest else (k, w) :: setL rest key v

/-- Association-list removal of the entry for `key`, modelling `Map.delete`
and `delete obj[key]`. -/
def eraseL {α : Type} : List (String × α) → String → List (String × α)
  | [], _ => []
  | (k, w) :: rest, key => if k = key then rest else (k, w) :: eraseL rest key

/-- The keys of an association list are pairwise distinct; this holds of
every JavaScript `Map` or plain object. -/
def nodupKeys {α : Type} : List (String × α) → Bool
  | [] => true
  | (k, _) :: rest => (lookupL rest k).isNone && nodupKeys rest

/-- The parsed form of the per-partition key-target map. -/
abbrev TargetMap := List (String × StorageTarget)

/-- JSON string-escaping for object keys: quote and backslash are escaped.
Models `JSON.stringify` for the strings that occur as storage keys. -/
def escKey : List Char → List Char
  | [] => []
  | c :: cs => if c = '\\' ∨ c = '"' then '\\' :: c :: escKey cs else c :: escKey cs

/-- The JSON character for a target. -/
def targetChar : StorageTarget → Char
  | .USER => '0'
  | .MACHINE => '1'

/-- The target denoted by a JSON character, if any. -/
def charTarget (c : Char) : Option StorageTarget :=
  if c = '0' then some .USER else if c = '1' then some .MACHINE else none

/-- One serialized member of the key-target object. -/
def stringifyEntry (e : List Char × StorageTarget) : List Char :=
  '"' :: (escKey e.1 ++ '"' :: ':' :: [targetChar e.2])

/-- Comma-separated serialized members. -/
def stringifyBody : List (List Char × StorageTarget) → List Char
  | [] => []
  | [e] => stringifyEntry e
  | e :: rest => stringifyEntry e ++ ',' :: stringifyBody rest

/-- `JSON.stringify` of a key-target map. -/
def stringifyTargets (m : TargetMap) : String :=
  String.mk ('{' :: (stringifyBody (m.map (fun e => (e.1.data, e.2))) ++ ['}']))

/-- Parses a JSON object key after its opening quote; returns the key and the
remaining input after the closing quote. -/
def parseJKey : List Char → Option (List Char × List Char)
  | [] => none
  | c :: cs =>
    if c = '\\' then
      match cs with
      | [] => none
      | d :: ds =>
        match parseJKey ds with
        | some (k, r) => some (d :: k, r)
        | none => none
    else if c = '"' then some ([], cs)
    else
      match parseJKey cs with
      | some (k, r) => some (c :: k, r)
      | none => none

/-- Parses the members of a non-empty key-target object, fuelled by an upper
bound on the number of members. -/
def parseEntriesSeq : Nat → List Char → Option (List (List Char × StorageTarget))
  | 0, _ => none
  | _ + 1, [] => none
  | fuel + 1, c :: cs =>
    if c = '"' then
      match parseJKey cs with
      | none => none
      | some (k, r) =>
        match r with
        | [] => none
        | a :: r1 =>
          if a = ':' then
            match r1 with
            | [] => none
            | b :: r2 =>
              match charTarget b with
              | none => none
              | some t =>
                match r2 with
                | [] => none
                | d :: r3 =>
                  if d = ',' then
                    match parseEntriesSeq fuel r3 with
                    | some es => some ((k, t) :: es)
                    | none => none
                  else if d = '}' then (if r3 = [] then some [(k, t)] else none)
                  else none
          else none
    else none

/-- Raw parse of a key-target object from characters; members are kept in
textual order, duplicates included. -/
def parseTargetsChars (l : List Char) : Option (List (List Char × StorageTarget)) :=
  match l with
  | '{' :: rest => if rest = ['}'] then some [] else parseEntriesSeq rest.length rest
  | _ => none

/-- `JSON.parse` specialised to the key-target shape used by the service: an
object whose values are the integers 0 or 1, per the TypeScript type of
`getKeyTargets`; any other text fails to parse.  Duplicate members follow the
JavaScript rule (first position, last value) via `setL`. -/
def jsonParseTargets (s : String) : Option TargetMap :=
  match parseTargetsChars s.data with
  | none => none
  | some raw => some (raw.foldl (fun acc e => setL acc (String.mk e.1) e.2) [])

/-- The three event streams of the storage service merged into one trace
alphabet: `onDidChangeStorage`, `onDidChangeTarget`, `onWillSaveState`. -/
inductive StorageEvent
  | change (key : String) (scope : StorageScope)
  | targetChange (scope : StorageScope)
  | willSave (reason : WillSaveStateReason)
deriving DecidableEq

/-- Delivery of `_onDidChangeStorage.fire`: the listener registered in the
`AbstractStorageService` constructor re-emits a target-change event whenever
the changed key is `TARGET_KEY`. -/
def fireDidChangeStorage (key : String) (scope : StorageScope) : List StorageEvent :=
  .change key scope :: (if key = TARGET_KEY then [.targetChange scope] else [])

/-- The two partition caches of `InMemoryStorageService`, as
insertion-ordered association lists. -/
structure StorageState where
  globalCache : List (String × String)
  workspaceCache : List (String × String)
deriving DecidableEq

/-- A freshly constructed `InMemoryStorageService`: both caches empty. -/
def initialState : StorageState := ⟨[], []⟩

/-- `InMemoryStorageService.getCache`. -/
def getCache (scope : StorageScope) (st : StorageState) : List (String × String) :=
  match scope with
  | .GLOBAL => st.globalCache
  | .WORKSPACE => st.workspaceCache

/-- Replaces the cache of one partition. -/
def setCache (scope : StorageScope) (c : List (String × String)) (st : StorageState) :
    StorageState :=
  match scope with
  | .GLOBAL => ⟨c, st.workspaceCache⟩
  | .WORKSPACE => ⟨st.globalCache, c⟩

/-- `InMemoryStorageService.get`: the stored text, or the fallback when the
key is absent; the optional fallback parameter is modelled as `Option`. -/
def get (key : String) (scope : StorageScope) (fallbackValue : Option String)
    (st : StorageState) : Option String :=
  match lookupL (getCache scope st) key with
  | none => fallbackValue
  | some value => some value

/-- `InMemoryStorageService.getBoolean`: present text is converted via strict
equality with the literal "true". -/
def getBoolean (key : String) (scope : StorageScope) (fallbackValue : Option Bool)
    (st : StorageState) : Option Bool :=
  match lookupL (getCache scope st) key with
  | none => fallbackValue
  | some value => some (decide (value = "true"))

/-- `InMemoryStorageService.getNumber`: present text is parsed with
`parseInt(value, 10)`. -/
def getNumber (key : String) (scope : StorageScope) (fallbackValue : Option JsNum)
    (st : StorageState) : Option JsNum :=
  match lookupL (getCache scope st) key with
  | none => fallbackValue
  | some value => some (parseIntB10 value)

/-- `InMemoryStorageService.doStore`: converts the value to a string, returns
early with no event when that text is already stored, otherwise updates the
cache and fires a change event. -/
def doStore (key : String) (value : Value) (scope : StorageScope) (st : StorageState) :
    StorageState × List StorageEvent :=
  let valueStr := valueToString value
  let cache := getCache scope st
  if lookupL cache key = some valueStr then (st, [])
  else (setCache scope (setL cache key valueStr) st, fireDidChangeStorage key scope)

/-- `InMemoryStorageService.doRemove`: returns early with no event when the
key is absent, otherwise deletes it and fires a change event. -/
def doRemove (key : String) (scope : StorageScope) (st : StorageState) :
    StorageState × List StorageEvent :=
  let cache := getCache scope st
  if (lookupL cache key).isSome then
    (setCache scope (eraseL cache key) st, fireDidChangeStorage key scope)
  else (st, [])

/-- `AbstractStorageService.getKeyTargets`: reads the reserved `TARGET_KEY`
text and parses it as JSON, failing gracefully to the empty map; an empty
string is falsy and also yields the empty map. -/
def getKeyTargets (scope : StorageScope) (st : StorageState) : TargetMap :=
  match get TARGET_KEY scope none st with
  | none => []
  | some keysRaw =>
    if keysRaw = "" then []
    else
      match jsonParseTargets keysRaw with
      | some m => m
      | none => []

/-- `AbstractStorageService.updateKeyTarget`: read-modify-write of the
key-target map; a `none` target means removal of the key's entry. -/
def updateKeyTarget (key : String) (scope : StorageScope) (target : Option StorageTarget)
    (st : StorageState) : StorageState × List StorageEvent :=
  let keyTargets := getKeyTargets scope st
  match target with
  | some t =>
    if lookupL keyTargets key = some t then (st, [])
    else doStore TARGET_KEY (.str (stringifyTargets (setL keyTargets key t))) scope st
  | none =>
    if (lookupL keyTargets key).isSome then
      doStore TARGET_KEY (.str (stringifyTargets (eraseL keyTargets key))) scope st
    else (st, [])

/-- `AbstractStorageService.remove`: removes the value, then updates the
key-target map. -/
def remove (key : String) (scope : StorageScope) (st : StorageState) :
    StorageState × List StorageEvent :=
  let r1 := doRemove key scope st
  let r2 := updateKeyTarget key scope none r1.1
  (r2.1, r1.2 ++ r2.2)

/-- `AbstractStorageService.store2`: delegates to `remove` on
null/undefined, otherwise stores the value and updates the key-target map. -/
def store2 (key : String) (value : Option Value) (scope : StorageScope)
    (target : StorageTarget) (st : StorageState) : StorageState × List StorageEvent :=
  match value with
  | none => remove key scope st
  | some v =>
    let r1 := doStore key v scope st
    let r2 := updateKeyTarget key scope (some target) r1.1
    (r2.1, r1.2 ++ r2.2)

/-- `AbstractStorageService.store`: deprecated alias for `store2` with target
`MACHINE`. -/
def store (key : String) (value : Option Value) (scope : StorageScope) (st : StorageState) :
    StorageState × List StorageEvent :=
  store2 key value scope .MACHINE st

/-- `AbstractStorageService.keys`: the keys of the key-target map whose
recorded target equals `target`, in map order. -/
def keys (scope : StorageScope) (target : StorageTarget) (st : StorageState) : List String :=
  ((getKeyTargets scope st).filter (fun e => decide (e.2 = target))).map Prod.fst

/-- `AbstractStorageService.isNew`: whether `getBoolean(IS_NEW_KEY, scope)`
is strictly `true`. -/
def isNew (scope : StorageScope) (st : StorageState) : Bool :=
  decide (getBoolean IS_NEW_KEY scope none st = some true)

/-- `InMemoryStorageService.doFlush`: a no-op completion. -/
def doFlush (st : StorageState) : StorageState × List StorageEvent := (st, [])

/-- `InMemoryStorageService.migrate`: not supported, completes as a no-op. -/
def migrate (st : StorageState) : StorageState := st

/-- `AbstractStorageService.flush`: fires `onWillSaveState` with reason NONE
— the synchronous reaction of the subscribers is modelled by `handler` — and
only then invokes the backend `doFlush` on the resulting state. -/
def flush (handler : StorageState → StorageState × List StorageEvent) (st : StorageState) :
    StorageState × List StorageEvent :=
  let r1 := handler st
  let r2 := doFlush r1.1
  (r2.1, .willSave .NONE :: (r1.2 ++ r2.2))

/-- The other of the two targets. -/
def otherTarget : StorageTarget → StorageTarget
  | .USER => .MACHINE
  | .MACHINE => .USER

/-- Number of change events for a given key and scope in a trace. -/
def countChange (key : String) (scope : StorageScope) (evs : List StorageEvent) : Nat :=
  (evs.filter (fun e => decide (e = .change key scope))).length

/-- Number of target-change events for a given scope in a trace. -/
def countTargetChange (scope : StorageScope) (evs : List StorageEvent) : Nat :=
  (evs.filter (fun e => decide (e = .targetChange scope))).length

/-- Whether an event is a will-save-state event. -/
def isWillSaveEvent : StorageEvent → Bool
  | .willSave _ => true
  | _ => false

/-- Number of will-save-state events in a trace. -/
def countWillSave (evs : List StorageEvent) : Nat := (evs.filter isWillSaveEvent).length

/-- `get` presented in the same state-and-events shape as the mutating
operations; the source method only reads the cache and neither writes nor
fires. -/
def getOp (key : String) (scope : StorageScope) (fb : Option String) (st : StorageState) :
    Option String × StorageState × List StorageEvent :=
  (get key scope fb st, st, [])

/-- `getBoolean` in state-and-events shape; the source method only reads. -/
def getBooleanOp (key : String) (scope : StorageScope) (fb : Option Bool) (st : StorageState) :
    Option Bool × StorageState × List StorageEvent :=
  (getBoolean key scope fb st, st, [])

/-- `getNumber` in state-and-events shape; the source method only reads. -/
def getNumberOp (key : String) (scope : StorageScope) (fb : Option JsNum) (st : StorageState) :
    Option JsNum × StorageState × List StorageEvent :=
  (getNumber key scope fb st, st, [])

/-- `keys` in state-and-events shape; the source method only reads. -/
def keysOp (scope : StorageScope) (target : StorageTarget) (st : StorageState) :
    List String × StorageState × List StorageEvent :=
  (keys scope target st, st, [])

/-- `isNew` in state-and-events shape; the source method only reads. -/
def isNewOp (scope : StorageScope) (st : StorageState) :
    Bool × StorageState × List StorageEvent :=
  (isNew scope st, st, [])

/-- A JavaScript runtime value as produced by `JSON.parse` and consumed by
the untyped key-target pathway of `AbstractStorageService`.  JSON numbers are
modelled as integers; an array carries its elements together with the
non-index string properties later assigned to it (fresh parses have none). -/
inductive JsonVal where
  | null
  | bool (b : Bool)
  | num (n : Int)
  | str (s : String)
  | arr (elems : List JsonVal) (props : List (String × JsonVal))
  | obj (fields : List (String × JsonVal))

/-- JSON whitespace: space, tab, line feed, carriage return. -/
def isJsonWs (c : Char) : Bool :=
  decide (c = ' ') || decide (c = '\t') || decide (c = '\n') || decide (c = '\x0d')

/-- Skips JSON whitespace. -/
def skipWs (l : List Char) : List Char := l.dropWhile isJsonWs

/-- Parses an unsigned JSON integer: the longest prefix of decimal digits. -/
def parseJsonNat (l : List Char) : Option (Nat × List Char) :=
  let ds := l.takeWhile isDigitC
  if ds = [] then none
  else some (ds.foldl (fun a c => a * 10 + digitVal c) 0, l.dropWhile isDigitC)

mutual
/-- `JSON.parse` at the value level, fuelled; parses one JSON value and
returns the unconsumed input.  JSON numbers are restricted to integers and an
escaped character in a string stands for itself (the escapes that
`JSON.stringify` emits); duplicate object members follow the JavaScript
first-position last-value rule. -/
def parseJsonVal : Nat → List Char → Option (JsonVal × List Char)
  | 0, _ => none
  | fuel + 1, l =>
    match skipWs l with
    | [] => none
    | c :: cs =>
      if c = '{' then
        match skipWs cs with
        | [] => none
        | d :: r =>
          if d = '}' then some (.obj [], r)
          else
            match parseJsonFields fuel (d :: r) with
            | some (fs, r2) => some (.obj (fs.foldl (fun acc e => setL acc e.1 e.2) []), r2)
            | none => none
      else if c = '[' then
        match skipWs cs with
        | [] => none
        | d :: r =>
          if d = ']' then some (.arr [] [], r)
          else
            match parseJsonElems fuel (d :: r) with
            | some (es, r2) => some (.arr es [], r2)
            | none => none
      else if c = '"' then
        match parseJKey cs with
        | some (k, r) => some (.str (String.mk k), r)
        | none => none
      else if c = 't' then
        match cs with
        | 'r' :: 'u' :: 'e' :: r => some (.bool true, r)
        | _ => none
      else if c = 'f' then
        match cs with
        | 'a' :: 'l' :: 's' :: 'e' :: r => some (.bool false, r)
        | _ => none
      else if c = 'n' then
        match cs with
        | 'u' :: 'l' :: 'l' :: r => some (.null, r)
        | _ => none
      else if c = '-' then
        match parseJsonNat cs with
        | some (n, r) => some (.num (-(n : Int)), r)
        | none => none
      else
        match parseJsonNat (c :: cs) with
        | some (n, r) => some (.num (n : Int), r)
        | none => none

/-- Members of a non-empty JSON object, in textual order. -/
def parseJsonFields : Nat → List Char → Option (List (String × JsonVal) × List Char)
  | 0, _ => none
  | fuel + 1, l =>
    match l with
    | '"' :: cs =>
      match parseJKey cs with
      | some (k, r) =>
        match skipWs r with
        | [] => none
        | d :: r2 =>
          if d = ':' then
            match parseJsonVal fuel r2 with
            | some (v, r3) =>
              match skipWs r3 with
              | [] => none
              | e :: r4 =>
                if e = ',' then
                  match parseJsonFields fuel (skipWs r4) with
                  | some (fs, r5) => some ((String.mk k, v) :: fs, r5)
                  | none => none
                else if e = '}' then some ([(String.mk k, v)], r4)
                else none
            | none => none
          else none
      | none => none
    | _ => none

/-- Elements of a non-empty JSON array. -/
def parseJsonElems : Nat → List Char → Option (List JsonVal × List Char)
  | 0, _ => none
  | fuel + 1, l =>
    match parseJsonVal fuel l with
    | some (v, r) =>
      match skipWs r with
      | [] => none
      | d :: r2 =>
        if d = ',' then
          match parseJsonElems fuel (skipWs r2) with
          | some (es, r3) => some (v :: es, r3)
          | none => none
        else if d = ']' then some ([v], r2)
        else none
    | none => none
end

/-- `JSON.parse`: one JSON value spanning the whole text, surrounding
whitespace allowed.  The source applies it under try/catch in
`getKeyTargets`. -/
def jsonParseJs (s : String) : Option JsonVal :=
  match parseJsonVal (s.data.length + 1) s.data with
  | some (v, r) => if skipWs r = [] then some v else none
  | none => none

mutual
/-- `JSON.stringify` of a runtime value: non-index properties of an array are
not serialized, exactly as in JavaScript. -/
def jsStringify : JsonVal → List Char
  | .null => ['n', 'u', 'l', 'l']
  | .bool b => if b then ['t', 'r', 'u', 'e'] else ['f', 'a', 'l', 's', 'e']
  | .num n => (intToString n).data
  | .str s => '"' :: (escKey s.data ++ ['"'])
  | .arr elems _ => '[' :: (jsStringifyElems elems ++ [']'])
  | .obj fields => '{' :: (jsStringifyFields fields ++ ['}'])

/-- Serialized array elements, comma separated. -/
def jsStringifyElems : List JsonVal → List Char
  | [] => []
  | [v] => jsStringify v
  | v :: rest => jsStringify v ++ ',' :: jsStringifyElems rest

/-- Serialized object members, comma separated. -/
def jsStringifyFields : List (String × JsonVal) → List Char
  | [] => []
  | [e] => '"' :: (escKey e.1.data ++ '"' :: ':' :: jsStringify e.2)
  | e :: rest =>
    ('"' :: (escKey e.1.data ++ '"' :: ':' :: jsStringify e.2)) ++ ',' :: jsStringifyFields rest
end

/-- The numeric ordinal persisted for a target: USER = 0, MACHINE = 1. -/
def targetNum : StorageTarget → Int
  | .USER => 0
  | .MACHINE => 1

/-- The runtime value of a well-formed key-target map. -/
def targetsToJson (m : TargetMap) : JsonVal :=
  .obj (m.map (fun e => (e.1, .num (targetNum e.2))))

/-- A canonical array-index string: decimal digits without a leading zero. -/
def asArrayIndex (k : String) : Option Nat :=
  match k.data with
  | [] => none
  | c :: cs =>
    if (c :: cs).all isDigitC = true ∧ (c = '0' → cs = []) then
      some ((c :: cs).foldl (fun a d => a * 10 + digitVal d) 0)
    else none

/-- JavaScript property read `v[key]`, `none` meaning undefined.  Reading a
property of null actually throws; the total model returns undefined there
(never reached by any theorem). -/
def jsGetProp : JsonVal → String → Option JsonVal
  | .obj fields, k => lookupL fields k
  | .arr elems props, k =>
    if k = "length" then some (.num (Int.ofNat elems.length))
    else
      match asArrayIndex k with
      | some i => elems.get? i
      | none => lookupL props k
  | .str s, k =>
    if k = "length" then some (.num (Int.ofNat s.data.length))
    else
      match asArrayIndex k with
      | some i => (s.data.get? i).map (fun c => .str (String.mk [c]))
      | none => none
  | _, _ => none

/-- JavaScript property write `v[key] = w`: in-place for objects; element
update or extension (holes as nulls) for array indices, property addition for
other array keys; silently ignored on primitives (on null it actually
throws, and assigning an array's length actually resizes — both documented
deviations, never reached by any theorem). -/
def jsSetProp : JsonVal → String → JsonVal → JsonVal
  | .obj fields, k, w => .obj (setL fields k w)
  | .arr elems props, k, w =>
    if k = "length" then .arr elems props
    else
      match asArrayIndex k with
      | some i =>
        if i < elems.length then .arr (elems.set i w) props
        else .arr (elems ++ List.replicate (i - elems.length) .null ++ [w]) props
      | none => .arr elems (setL props k w)
  | .str s, _, _ => .str s
  | .num n, _, _ => .num n
  | .bool b, _, _ => .bool b
  | .null, _, _ => .null

/-- JavaScript `delete v[key]`: removes an object field or an array property;
an array hole left by deleting an index is modelled as null (hole and null
serialize identically; never reached by any theorem). -/
def jsDelete : JsonVal → String → JsonVal
  | .obj fields, k => .obj (eraseL fields k)
  | .arr elems props, k =>
    match asArrayIndex k with
    | some i => .arr (elems.set i .null) props
    | none => .arr elems (eraseL props k)
  | v, _ => v

/-- `Object.entries`: fields of an object, index entries then added
properties for an array, character entries for a string, empty for numbers
and booleans (for null it actually throws; never reached by any theorem). -/
def jsEntries : JsonVal → List (String × JsonVal)
  | .obj fields => fields
  | .arr elems props =>
    elems.enum.map (fun p => (String.mk (natToDigits p.1), p.2)) ++ props
  | .str s => s.data.enum.map (fun p => (String.mk (natToDigits p.1), .str (String.mk [p.2])))
  | _ => []

/-- JavaScript strict equality `x === n` of a possibly-undefined value with a
number: true exactly for that number. -/
def jsStrictEqNum : Option JsonVal → Int → Bool
  | some (.num m), n => decide (m = n)
  | _, _ => false

/-- JavaScript `typeof x === 'number'` of a possibly-undefined value. -/
def jsIsNumber : Option JsonVal → Bool
  | some (.num _) => true
  | _ => false

/-- Strict equality of an entry value with a target ordinal, as in the filter
of `keys`. -/
def jsEqTarget (v : JsonVal) (t : StorageTarget) : Bool :=
  jsStrictEqNum (some v) (targetNum t)

/-- `AbstractStorageService.getKeyTargets` under the untyped JavaScript
semantics: the parsed runtime value of the reserved `TARGET_KEY` text,
falling back to a fresh empty object when the text is absent, empty, or
fails to parse. -/
def getKeyTargetsJs (scope : StorageScope) (st : StorageState) : JsonVal :=
  match get TARGET_KEY scope none st with
  | none => .obj []
  | some keysRaw =>
    if keysRaw = "" then .obj []
    else
      match jsonParseJs keysRaw with
      | some v => v
      | none => .obj []

/-- `AbstractStorageService.updateKeyTarget` under the untyped JavaScript
semantics: property test, assignment, and re-serialization act on the parsed
runtime value, whatever its kind. -/
def updateKeyTargetJs (key : String) (scope : StorageScope) (target : Option StorageTarget)
    (st : StorageState) : StorageState × List StorageEvent :=
  let keyTargets := getKeyTargetsJs scope st
  match target with
  | some t =>
    if jsStrictEqNum (jsGetProp keyTargets key) (targetNum t) then (st, [])
    else
      doStore TARGET_KEY
        (.str (String.mk (jsStringify (jsSetProp keyTargets key (.num (targetNum t)))))) scope st
  | none =>
    if jsIsNumber (jsGetProp keyTargets key) then
      doStore TARGET_KEY (.str (String.mk (jsStringify (jsDelete keyTargets key)))) scope st
    else (st, [])

/-- `AbstractStorageService.keys` under the untyped JavaScript semantics:
`Object.entries` of the parsed runtime value, filtered by strict equality
with the target ordinal. -/
def keysJs (scope : StorageScope) (target : StorageTarget) (st : StorageState) : List String :=
  ((jsEntries (getKeyTargetsJs scope st)).filter (fun e => jsEqTarget e.2 target)).map Prod.fst

/-- `AbstractStorageService.remove` under the untyped JavaScript semantics. -/
def removeJs (key : String) (scope : StorageScope) (st : StorageState) :
    StorageState × List StorageEvent :=
  let r1 := doRemove key scope st
  let r2 := updateKeyTargetJs key scope none r1.1
  (r2.1, r1.2 ++ r2.2)

/-- `AbstractStorageService.store2` under the untyped JavaScript semantics. -/
def store2Js (key : String) (value : Option Value) (scope : StorageScope)
    (target : StorageTarget) (st : StorageState) : StorageState × List StorageEvent :=
  match value with
  | none => removeJs key scope st
  | some v =>
    let r1 := doStore key v scope st
    let r2 := updateKeyTargetJs key scope (some target) r1.1
    (r2.1, r1.2 ++ r2.2)

/-- The reserved `TARGET_KEY` entry of a partition is absent, empty, or holds
the serialization of a well-formed key-target map — the invariant of every
state reached without storing caller data under the reserved key. -/
def goodTargetText (scope : StorageScope) (st : StorageState) : Prop :=
  lookupL (getCache scope st) TARGET_KEY = none
    ∨ lookupL (getCache scope st) TARGET_KEY = some ""
    ∨ ∃ m : TargetMap, nodupKeys m = true
        ∧ lookupL (getCache scope st) TARGET_KEY = some (stringifyTargets m)

end VSCodeStorage

namespace VSCodeStorage

theorem lookupL_setL_self {α : Type} (m : List (String × α)) (k : String) (v : α) :
    lookupL (setL m k v) k = some v := by
  induction m with
  | nil => simp [setL, lookupL]
  | cons e rest ih =>
    obtain ⟨k1, w⟩ := e
    by_cases h : k1 = k
    · simp [setL, h, lookupL]
    · simp [setL, h, lookupL, ih]

theorem lookupL_setL_ne {α : Type} (m : List (String × α)) (k key : String) (v : α)
    (h : key ≠ k) : lookupL (setL m k v) key = lookupL m key := by
  induction m with
  | nil => simp [setL, lookupL, Ne.symm h]
  | cons e rest ih =>
    obtain ⟨k1, w⟩ := e
    by_cases h1 : k1 = k
    · subst h1
      simp [setL, lookupL, Ne.symm h]
    · simp [setL, h1, lookupL, ih]

theorem lookupL_eraseL_ne {α : Type} (m : List (String × α)) (k key : String)
    (h : key ≠ k) : lookupL (eraseL m k) key = lookupL m key := by
  induction m with
  | nil => simp [eraseL]
  | cons e rest ih =>
    obtain ⟨k1, w⟩ := e
    by_cases h1 : k1 = k
    · subst h1
      simp [eraseL, lookupL, Ne.symm h]
    · simp [eraseL, h1, lookupL, ih]

theorem setL_eq_of_lookup {α : Type} (m : List (String × α)) (k : String) (v : α)
    (h : lookupL m k = some v) : setL m k v = m := by
  induction m with
  | nil => simp [lookupL] at h
  | cons e rest ih =>
    obtain ⟨k1, w⟩ := e
    by_cases h1 : k1 = k
    · subst h1
      simp [lookupL] at h
      simp [setL, h]
    · simp [lookupL, h1] at h
      simp [setL, h1, ih h]

theorem eraseL_eq_of_lookup_none {α : Type} (m : List (String × α)) (k : String)
    (h : lookupL m k = none) : eraseL m k = m := by
  induction m with
  | nil => simp [eraseL]
  | cons e rest ih =>
    obtain ⟨k1, w⟩ := e
    by_cases h1 : k1 = k
    · simp [lookupL, h1] at h
    · simp [lookupL, h1] at h
      simp [eraseL, h1, ih h]

theorem lookupL_ne_none_of_mem {α : Type} (m : List (String × α)) (k : String) (v : α)
    (h : (k, v) ∈ m) : lookupL m k ≠ none := by
  induction m with
  | nil => simp at h
  | cons e rest ih =>
    obtain ⟨k1, w⟩ := e
    by_cases h1 : k1 = k
    · simp [lookupL, h1]
    · rcases List.mem_cons.mp h with h2 | h2
      · exact absurd (congrArg Prod.fst h2).symm h1
      · simp [lookupL, h1]
        exact ih h2

theorem mem_of_lookupL_eq_some {α : Type} (m : List (String × α)) (k : String) (v : α)
    (h : lookupL m k = some v) : (k, v) ∈ m := by
  induction m with
  | nil => simp [lookupL] at h
  | cons e rest ih =>
    obtain ⟨k1, w⟩ := e
    by_cases h1 : k1 = k
    · subst h1
      simp [lookupL] at h
      simp [h]
    · simp [lookupL, h1] at h
      simp [ih h]

theorem lookupL_eq_some_of_mem {α : Type} (m : List (String × α)) (k : String) (v : α)
    (hnd : nodupKeys m = true) (h : (k, v) ∈ m) : lookupL m k = some v := by
  induction m with
  | nil => simp at h
  | cons e rest ih =>
    obtain ⟨k1, w⟩ := e
    simp [nodupKeys, Option.isNone_iff_eq_none] at hnd
    rcases List.mem_cons.mp h with h2 | h2
    · have hk : k = k1 := (congrArg Prod.fst h2)
      have hv : v = w := (congrArg Prod.snd h2)
      subst hk
      subst hv
      simp [lookupL]
    · by_cases h1 : k1 = k
      · subst h1
        exact absurd hnd.1 (lookupL_ne_none_of_mem rest k1 v h2)
      · simp [lookupL, h1]
        exact ih hnd.2 h2

theorem nodupKeys_setL {α : Type} (m : List (String × α)) (k : String) (v : α)
    (h : nodupKeys m = true) : nodupKeys (setL m k v) = true := by
  induction m with
  | nil => simp [setL, nodupKeys, lookupL]
  | cons e rest ih =>
    obtain ⟨k1, w⟩ := e
    simp [nodupKeys, Option.isNone_iff_eq_none] at h
    by_cases h1 : k1 = k
    · subst h1
      simp [setL, nodupKeys, Option.isNone_iff_eq_none]
      exact ⟨h.1, h.2⟩
    · simp [setL, h1, nodupKeys, Option.isNone_iff_eq_none]
      constructor
      · rw [lookupL_setL_ne rest k k1 v h1]
        exact h.1
      · exact ih h.2

theorem nodupKeys_eraseL {α : Type} (m : List (String × α)) (k : String)
    (h : nodupKeys m = true) : nodupKeys (eraseL m k) = true := by
  induction m with
  | nil => simp [eraseL, nodupKeys]
  | cons e rest ih =>
    obtain ⟨k1, w⟩ := e
    simp [nodupKeys, Option.isNone_iff_eq_none] at h
    by_cases h1 : k1 = k
    · simp [eraseL, h1]
      exact h.2
    · simp [eraseL, h1, nodupKeys, Option.isNone_iff_eq_none]
      constructor
      · rw [lookupL_eraseL_ne rest k k1 h1]
        exact h.1
      · exact ih h.2

theorem lookupL_eraseL_self {α : Type} (m : List (String × α)) (k : String)
    (h : nodupKeys m = true) : lookupL (eraseL m k) k = none := by
  induction m with
  | nil => simp [eraseL, lookupL]
  | cons e rest ih =>
    obtain ⟨k1, w⟩ := e
    simp [nodupKeys, Option.isNone_iff_eq_none] at h
    by_cases h1 : k1 = k
    · subst h1
      simp [eraseL, h.1]
    · simp [eraseL, h1, lookupL, ih h.2]

theorem mem_keys_iff (mm : TargetMap) (k : String) (t : StorageTarget)
    (h : nodupKeys mm = true) :
    k ∈ (mm.filter (fun e => decide (e.2 = t))).map Prod.fst ↔ lookupL mm k = some t := by
  constructor
  · intro hm
    obtain ⟨e, hef, he1⟩ := List.mem_map.mp hm
    obtain ⟨hem, het⟩ := List.mem_filter.mp hef
    have ht : e.2 = t := of_decide_eq_true het
    have : (k, t) ∈ mm := by
      have : e = (k, t) := by
        obtain ⟨e1, e2⟩ := e
        simp at he1 ht
        rw [he1, ht]
      rw [this] at hem
      exact hem
    exact lookupL_eq_some_of_mem mm k t h this
  · intro hl
    refine List.mem_map.mpr ⟨(k, t), List.mem_filter.mpr ⟨mem_of_lookupL_eq_some mm k t hl, by simp⟩, rfl⟩

end VSCodeStorage

namespace VSCodeStorage

theorem data_mk (l : List Char) : (String.mk l).data = l := rfl

theorem string_mk_data (s : String) : String.mk s.data = s := rfl

theorem digitVal_digitChar (d : Nat) (h : d < 10) : digitVal (digitChar d) = d := by
  interval_cases d <;> rfl

theorem isDigitC_digitChar (d : Nat) (h : d < 10) : isDigitC (digitChar d) = true := by
  interval_cases d <;> rfl

theorem digitChar_not_ws (d : Nat) (h : d < 10) : (digitChar d).isWhitespace = false := by
  interval_cases d <;> decide

theorem digitChar_ne_minus (d : Nat) (h : d < 10) : digitChar d ≠ '-' := by
  interval_cases d <;> decide

theorem digitChar_ne_plus (d : Nat) (h : d < 10) : digitChar d ≠ '+' := by
  interval_cases d <;> decide

theorem natToDigitsAux_mem (fuel : Nat) :
    ∀ (n : Nat), n < fuel → ∀ c ∈ natToDigitsAux fuel n, ∃ d, d < 10 ∧ c = digitChar d := by
  induction fuel with
  | zero => intro n h; omega
  | succ fuel ih =>
    intro n h c hc
    by_cases h10 : n < 10
    · simp [natToDigitsAux, h10] at hc
      exact ⟨n, h10, hc⟩
    · have hd : n / 10 < fuel := by omega
      simp only [natToDigitsAux, if_neg h10, List.mem_append] at hc
      rcases hc with hc | hc
      · exact ih (n / 10) hd c hc
      · simp at hc
        exact ⟨n % 10, by omega, hc⟩

theorem natToDigitsAux_ne_nil (fuel n : Nat) (h : n < fuel) : natToDigitsAux fuel n ≠ [] := by
  cases fuel with
  | zero => omega
  | succ fuel =>
    by_cases h10 : n < 10
    · simp [natToDigitsAux, h10]
    · simp [natToDigitsAux, h10]

theorem foldl_digits_natToDigitsAux (fuel : Nat) :
    ∀ (n acc : Nat), n < fuel →
      (natToDigitsAux fuel n).foldl (fun a c => a * 10 + digitVal c) acc
        = acc * 10 ^ (natToDigitsAux fuel n).length + n := by
  induction fuel with
  | zero => intro n acc h; omega
  | succ fuel ih =>
    intro n acc h
    by_cases h10 : n < 10
    · simp [natToDigitsAux, h10, digitVal_digitChar n h10]
    · have hd : n / 10 < fuel := by omega
      rw [natToDigitsAux, if_neg h10, List.foldl_append, ih (n / 10) acc hd]
      have hmod : digitVal (digitChar (n % 10)) = n % 10 := digitVal_digitChar _ (by omega)
      simp only [List.foldl_cons, List.foldl_nil, hmod, List.length_append,
        List.length_cons, List.length_nil]
      rw [pow_succ, ← mul_assoc]
      generalize acc * 10 ^ (natToDigitsAux fuel (n / 10)).length = p
      omega

theorem takeWhile_of_all {α : Type} (p : α → Bool) :
    ∀ l : List α, (∀ c ∈ l, p c = true) → l.takeWhile p = l := by
  intro l
  induction l with
  | nil => intro; rfl
  | cons c cs ih =>
    intro h
    rw [List.takeWhile_cons, h c (List.mem_cons_self c cs)]
    simp [ih fun x hx => h x (List.mem_cons_of_mem c hx)]

theorem dropWhile_of_all_neg {α : Type} (p : α → Bool) :
    ∀ l : List α, (∀ c ∈ l, p c = false) → l.dropWhile p = l := by
  intro l
  induction l with
  | nil => intro; rfl
  | cons c cs ih =>
    intro h
    rw [List.dropWhile_cons, h c (List.mem_cons_self c cs)]
    simp

theorem natToDigits_mem (m : Nat) :
    ∀ c ∈ natToDigits m, ∃ d, d < 10 ∧ c = digitChar d :=
  natToDigitsAux_mem (m + 1) m (Nat.lt_succ_self m)

theorem natToDigits_ne_nil (m : Nat) : natToDigits m ≠ [] :=
  natToDigitsAux_ne_nil (m + 1) m (Nat.lt_succ_self m)

theorem foldl_digits_natToDigits (m : Nat) :
    (natToDigits m).foldl (fun a c => a * 10 + digitVal c) 0 = m := by
  rw [natToDigits, foldl_digits_natToDigitsAux (m + 1) m 0 (Nat.lt_succ_self m)]
  simp

theorem natToDigits_not_ws (m : Nat) : ∀ c ∈ natToDigits m, c.isWhitespace = false := by
  intro c hc
  obtain ⟨d, hd, rfl⟩ := natToDigits_mem m c hc
  exact digitChar_not_ws d hd

theorem natToDigits_digits (m : Nat) : ∀ c ∈ natToDigits m, isDigitC c = true := by
  intro c hc
  obtain ⟨d, hd, rfl⟩ := natToDigits_mem m c hc
  exact isDigitC_digitChar d hd

theorem splitSign_minus (l : List Char) : splitSign ('-' :: l) = (true, l) := by
  simp [splitSign]

theorem splitSign_digit (d : Nat) (l : List Char) (h : d < 10) :
    splitSign (digitChar d :: l) = (false, digitChar d :: l) := by
  simp [splitSign, digitChar_ne_minus d h, digitChar_ne_plus d h]

theorem parseIntB10_mk_natToDigits (m : Nat) :
    parseIntB10 (String.mk (natToDigits m)) = .int (m : Int) := by
  obtain ⟨c, cs, hD⟩ := List.exists_cons_of_ne_nil (natToDigits_ne_nil m)
  have hcd : ∃ d, d < 10 ∧ c = digitChar d := by
    apply natToDigits_mem m c
    rw [hD]
    exact List.mem_cons_self c cs
  obtain ⟨d, hd, rfl⟩ := hcd
  simp only [parseIntB10, data_mk]
  rw [dropWhile_of_all_neg _ _ (natToDigits_not_ws m), hD, splitSign_digit d cs hd, ← hD]
  simp only []
  rw [takeWhile_of_all _ _ (natToDigits_digits m)]
  rw [if_neg (natToDigits_ne_nil m)]
  rw [foldl_digits_natToDigits m]
  simp

theorem parseIntB10_intToString (n : Int) : parseIntB10 (intToString n) = .int n := by
  by_cases hn : n < 0
  · rw [intToString, if_pos hn]
    have hws : ∀ c2 ∈ '-' :: natToDigits n.natAbs, c2.isWhitespace = false := by
      intro c2 hc2
      rcases List.mem_cons.mp hc2 with h2 | h2
      · rw [h2]; decide
      · exact natToDigits_not_ws n.natAbs c2 h2
    simp only [parseIntB10, data_mk]
    rw [dropWhile_of_all_neg _ _ hws, splitSign_minus]
    simp only []
    rw [takeWhile_of_all _ _ (natToDigits_digits n.natAbs)]
    rw [if_neg (natToDigits_ne_nil n.natAbs)]
    rw [foldl_digits_natToDigits n.natAbs]
    have h2 : ((n.natAbs : Int)) = -n := by omega
    simp [h2]
  · rw [intToString, if_neg hn, parseIntB10_mk_natToDigits]
    have : ((n.natAbs : Int)) = n := by omega
    rw [this]

end VSCodeStorage

namespace VSCodeStorage

theorem charTarget_targetChar (t : StorageTarget) : charTarget (targetChar t) = some t := by
  cases t <;> rfl

theorem parseJKey_escKey : ∀ (k rest : List Char), parseJKey (escKey k ++ '"' :: rest) = some (k, rest) := by
  intro k
  induction k with
  | nil =>
    intro rest
    rw [show escKey [] ++ '"' :: rest = '"' :: rest from rfl, parseJKey.eq_def]
    simp +decide
  | cons c cs ih =>
    intro rest
    by_cases h : c = '\\' ∨ c = '"'
    · have hks : escKey (c :: cs) = '\\' :: c :: escKey cs := by rw [escKey, if_pos h]
      have hx : ('\\' :: c :: escKey cs) ++ '"' :: rest
          = '\\' :: (c :: (escKey cs ++ '"' :: rest)) := by simp
      rw [hks, hx, parseJKey.eq_def]
      simp +decide [ih rest]
    · have hks : escKey (c :: cs) = c :: escKey cs := by rw [escKey, if_neg h]
      push_neg at h
      have hx : (c :: escKey cs) ++ '"' :: rest = c :: (escKey cs ++ '"' :: rest) := by simp
      rw [hks, hx, parseJKey.eq_def]
      simp [h.1, h.2, ih rest]

theorem stringifyBody_cons_shape (e : List Char × StorageTarget)
    (es : List (List Char × StorageTarget)) :
    ∃ l, stringifyBody (e :: es) = '"' :: l := by
  cases es with
  | nil => exact ⟨_, rfl⟩
  | cons e2 rest =>
    refine ⟨escKey e.1 ++ '"' :: ':' :: [targetChar e.2] ++ ',' :: stringifyBody (e2 :: rest), ?_⟩
    simp [stringifyBody, stringifyEntry]

theorem stringifyBody_length : ∀ (es : List (List Char × StorageTarget)),
    es.length ≤ (stringifyBody es).length := by
  intro es
  induction es with
  | nil => simp [stringifyBody]
  | cons e es ih =>
    cases es with
    | nil => simp [stringifyBody, stringifyEntry]
    | cons e2 rest =>
      have hb : stringifyBody (e :: e2 :: rest) = stringifyEntry e ++ ',' :: stringifyBody (e2 :: rest) := rfl
      rw [hb]
      simp only [List.length_append, List.length_cons]
      have := ih
      simp only [List.length_cons] at this ⊢
      omega

theorem parseEntriesSeq_stringifyBody :
    ∀ (es : List (List Char × StorageTarget)) (fuel : Nat), es ≠ [] → es.length ≤ fuel →
      parseEntriesSeq fuel (stringifyBody es ++ ['}']) = some es := by
  intro es
  induction es with
  | nil => intro fuel h; exact absurd rfl h
  | cons e es ih =>
    intro fuel _ hlen
    obtain ⟨k, t⟩ := e
    cases fuel with
    | zero => simp at hlen
    | succ f =>
      cases es with
      | nil =>
        have hb : stringifyBody [(k, t)] ++ ['}']
            = '"' :: (escKey k ++ '"' :: ':' :: targetChar t :: '}' :: []) := by
          simp [stringifyBody, stringifyEntry]
        rw [hb]
        simp +decide only [parseEntriesSeq, if_pos, parseJKey_escKey, charTarget_targetChar,
          if_neg, reduceIte]
      | cons e2 rest =>
        have hb : stringifyBody ((k, t) :: e2 :: rest) ++ ['}']
            = '"' :: (escKey k ++ '"' :: ':' :: targetChar t :: ',' :: (stringifyBody (e2 :: rest) ++ ['}'])) := by
          simp [stringifyBody, stringifyEntry]
        rw [hb]
        have hrec : parseEntriesSeq f (stringifyBody (e2 :: rest) ++ ['}']) = some (e2 :: rest) := by
          apply ih f (by simp)
          simp only [List.length_cons] at hlen ⊢
          omega
        simp +decide only [parseEntriesSeq, if_pos, parseJKey_escKey, charTarget_targetChar,
          hrec, reduceIte]

theorem parseTargetsChars_stringify (m : TargetMap) :
    parseTargetsChars (stringifyTargets m).data = some (m.map (fun e => (e.1.data, e.2))) := by
  cases m with
  | nil => rfl
  | cons e ms =>
    have hd : (stringifyTargets (e :: ms)).data
        = '{' :: (stringifyBody ((e :: ms).map (fun e => (e.1.data, e.2))) ++ ['}']) := rfl
    obtain ⟨l, hl⟩ := stringifyBody_cons_shape (e.1.data, e.2) (ms.map (fun e => (e.1.data, e.2)))
    have hmap : (e :: ms).map (fun e => (e.1.data, e.2))
        = (e.1.data, e.2) :: ms.map (fun e => (e.1.data, e.2)) := rfl
    rw [hd]
    rw [parseTargetsChars]
    rw [hmap, hl]
    have hne : ('"' :: l) ++ ['}'] ≠ ['}'] := by simp
    rw [if_neg hne]
    rw [← hl, ← hmap]
    apply parseEntriesSeq_stringifyBody
    · simp
    · have h1 := stringifyBody_length ((e :: ms).map (fun e => (e.1.data, e.2)))
      simp only [List.length_append, List.length_map, List.length_cons] at h1 ⊢
      omega

theorem setL_append_of_lookup_none {α : Type} (m : List (String × α)) (k : String) (v : α)
    (h : lookupL m k = none) : setL m k v = m ++ [(k, v)] := by
  induction m with
  | nil => simp [setL]
  | cons e rest ih =>
    obtain ⟨k1, w⟩ := e
    by_cases h1 : k1 = k
    · simp [lookupL, h1] at h
    · simp [lookupL, h1] at h
      simp [setL, h1, ih h]

theorem lookupL_acc_none_of_mem_append {α : Type} :
    ∀ (acc l : List (String × α)) (k : String) (v : α),
      nodupKeys (acc ++ l) = true → (k, v) ∈ l → lookupL acc k = none := by
  intro acc
  induction acc with
  | nil => intro l k v _ _; rfl
  | cons e acc2 ih =>
    intro l k v h hm
    obtain ⟨k1, w⟩ := e
    have hc : nodupKeys ((k1, w) :: (acc2 ++ l)) = true := h
    simp [nodupKeys, Option.isNone_iff_eq_none] at hc
    by_cases h1 : k1 = k
    · subst h1
      have : (k1, v) ∈ acc2 ++ l := List.mem_append_right acc2 hm
      exact absurd hc.1 (lookupL_ne_none_of_mem (acc2 ++ l) k1 v this)
    · simp [lookupL, h1]
      exact ih l k v hc.2 hm

theorem foldl_setL_data :
    ∀ (m : TargetMap) (acc : TargetMap), nodupKeys (acc ++ m) = true →
      (m.map (fun e => (e.1.data, e.2))).foldl (fun a e => setL a (String.mk e.1) e.2) acc
        = acc ++ m := by
  intro m
  induction m with
  | nil => intro acc _; simp
  | cons e ms ih =>
    intro acc h
    obtain ⟨k, v⟩ := e
    simp only [List.map_cons, List.foldl_cons]
    rw [string_mk_data]
    have hnone : lookupL acc k = none :=
      lookupL_acc_none_of_mem_append acc ((k, v) :: ms) k v h (List.mem_cons_self _ _)
    rw [setL_append_of_lookup_none acc k v hnone]
    have happ : (acc ++ [(k, v)]) ++ ms = acc ++ (k, v) :: ms := by simp
    rw [ih (acc ++ [(k, v)]) (by rw [happ]; exact h), happ]

theorem nodupKeys_foldl_setL :
    ∀ (raw : List (List Char × StorageTarget)) (acc : TargetMap), nodupKeys acc = true →
      nodupKeys (raw.foldl (fun a e => setL a (String.mk e.1) e.2) acc) = true := by
  intro raw
  induction raw with
  | nil => intro acc h; exact h
  | cons e rest ih =>
    intro acc h
    simp only [List.foldl_cons]
    exact ih (setL acc (String.mk e.1) e.2) (nodupKeys_setL acc (String.mk e.1) e.2 h)

theorem jsonParse_stringify (m : TargetMap) (h : nodupKeys m = true) :
    jsonParseTargets (stringifyTargets m) = some m := by
  have hfold := foldl_setL_data m [] (by simpa using h)
  simp only [List.nil_append] at hfold
  simp [jsonParseTargets, parseTargetsChars_stringify, hfold]

theorem jsonParse_nodup (s : String) (mm : TargetMap) (h : jsonParseTargets s = some mm) :
    nodupKeys mm = true := by
  rw [jsonParseTargets] at h
  cases hp : parseTargetsChars s.data with
  | none => rw [hp] at h; simp at h
  | some raw =>
    rw [hp] at h
    simp at h
    rw [← h]
    exact nodupKeys_foldl_setL raw [] rfl

theorem stringifyTargets_ne_empty (m : TargetMap) : stringifyTargets m ≠ "" := by
  intro h
  have h2 := congrArg String.data h
  simp [stringifyTargets, data_mk] at h2

end VSCodeStorage

namespace VSCodeStorage

theorem getCache_setCache_self (scope : StorageScope) (c : List (String × String))
    (st : StorageState) : getCache scope (setCache scope c st) = c := by
  cases scope <;> rfl

theorem get_none_eq_lookup (k : String) (scope : StorageScope) (st : StorageState) :
    get k scope none st = lookupL (getCache scope st) k := by
  rw [get]
  cases lookupL (getCache scope st) k <;> simp

theorem doStore_cache_self (k : String) (v : Value) (scope : StorageScope) (st : StorageState) :
    lookupL (getCache scope (doStore k v scope st).1) k = some (valueToString v) := by
  by_cases h : lookupL (getCache scope st) k = some (valueToString v)
  · simp [doStore, h]
  · simp [doStore, h, getCache_setCache_self, lookupL_setL_self]

theorem doStore_cache_ne (k : String) (v : Value) (scope : StorageScope) (st : StorageState)
    (key : String) (h : key ≠ k) :
    lookupL (getCache scope (doStore k v scope st).1) key = lookupL (getCache scope st) key := by
  by_cases h2 : lookupL (getCache scope st) k = some (valueToString v) <;>
    simp [doStore, h2, getCache_setCache_self, lookupL_setL_ne _ _ _ _ h]

theorem doRemove_cache_self (k : String) (scope : StorageScope) (st : StorageState)
    (h : nodupKeys (getCache scope st) = true) :
    lookupL (getCache scope (doRemove k scope st).1) k = none := by
  by_cases h2 : (lookupL (getCache scope st) k).isSome
  · simp [doRemove, h2, getCache_setCache_self, lookupL_eraseL_self _ _ h]
  · simp [doRemove, h2]
    simpa using h2

theorem doRemove_cache_ne (k : String) (scope : StorageScope) (st : StorageState)
    (key : String) (h : key ≠ k) :
    lookupL (getCache scope (doRemove k scope st).1) key = lookupL (getCache scope st) key := by
  by_cases h2 : (lookupL (getCache scope st) k).isSome <;>
    simp [doRemove, h2, getCache_setCache_self, lookupL_eraseL_ne _ _ _ h]

theorem getKeyTargets_nodup (scope : StorageScope) (st : StorageState) :
    nodupKeys (getKeyTargets scope st) = true := by
  rw [getKeyTargets]
  cases h : get TARGET_KEY scope none st with
  | none => rfl
  | some raw =>
    by_cases he : raw = ""
    · simp [he, nodupKeys]
    · simp only [he, if_false]
      cases hp : jsonParseTargets raw with
      | none => simp [nodupKeys]
      | some mm => simp [jsonParse_nodup raw mm hp]

theorem getKeyTargets_doStore_ne (k : String) (v : Value) (scope : StorageScope)
    (st : StorageState) (h : k ≠ TARGET_KEY) :
    getKeyTargets scope (doStore k v scope st).1 = getKeyTargets scope st := by
  rw [getKeyTargets, getKeyTargets, get_none_eq_lookup, get_none_eq_lookup,
    doStore_cache_ne k v scope st TARGET_KEY (Ne.symm h)]

theorem getKeyTargets_doRemove_ne (k : String) (scope : StorageScope)
    (st : StorageState) (h : k ≠ TARGET_KEY) :
    getKeyTargets scope (doRemove k scope st).1 = getKeyTargets scope st := by
  rw [getKeyTargets, getKeyTargets, get_none_eq_lookup, get_none_eq_lookup,
    doRemove_cache_ne k scope st TARGET_KEY (Ne.symm h)]

theorem getKeyTargets_doStore_target (scope : StorageScope) (st : StorageState)
    (w : String) (hw : w ≠ "") (mm : TargetMap) (hp : jsonParseTargets w = some mm) :
    getKeyTargets scope (doStore TARGET_KEY (.str w) scope st).1 = mm := by
  rw [getKeyTargets, get_none_eq_lookup]
  have hc : lookupL (getCache scope (doStore TARGET_KEY (.str w) scope st).1) TARGET_KEY
      = some w := doStore_cache_self TARGET_KEY (.str w) scope st
  rw [hc]
  simp [hw, hp]

theorem updateKeyTarget_set_targets (k : String) (scope : StorageScope) (t : StorageTarget)
    (st : StorageState) :
    getKeyTargets scope (updateKeyTarget k scope (some t) st).1
      = setL (getKeyTargets scope st) k t := by
  rw [updateKeyTarget]
  by_cases h : lookupL (getKeyTargets scope st) k = some t
  · simp only [h, if_pos]
    rw [setL_eq_of_lookup _ _ _ h]
  · simp only [h, if_neg, if_false]
    exact getKeyTargets_doStore_target scope st _ (stringifyTargets_ne_empty _) _
      (jsonParse_stringify _ (nodupKeys_setL _ k t (getKeyTargets_nodup scope st)))

theorem updateKeyTarget_remove_targets (k : String) (scope : StorageScope) (st : StorageState) :
    getKeyTargets scope (updateKeyTarget k scope none st).1
      = eraseL (getKeyTargets scope st) k := by
  by_cases h : (lookupL (getKeyTargets scope st) k).isSome
  · rw [updateKeyTarget]
    simp only [h, if_pos]
    exact getKeyTargets_doStore_target scope st _ (stringifyTargets_ne_empty _) _
      (jsonParse_stringify _ (nodupKeys_eraseL _ k (getKeyTargets_nodup scope st)))
  · rw [eraseL_eq_of_lookup_none _ _ (by simpa using h)]
    simp [updateKeyTarget, h]

theorem updateKeyTarget_cache_ne (k : String) (scope : StorageScope)
    (tg : Option StorageTarget) (st : StorageState) (key : String) (h : key ≠ TARGET_KEY) :
    lookupL (getCache scope (updateKeyTarget k scope tg st).1) key
      = lookupL (getCache scope st) key := by
  cases tg with
  | none =>
    by_cases h2 : (lookupL (getKeyTargets scope st) k).isSome <;>
      simp [updateKeyTarget, h2, doStore_cache_ne _ _ _ _ _ h]
  | some t =>
    by_cases h2 : lookupL (getKeyTargets scope st) k = some t <;>
      simp [updateKeyTarget, h2, doStore_cache_ne _ _ _ _ _ h]

theorem doStore_events_fire (k : String) (v : Value) (scope : StorageScope) (st : StorageState)
    (h : lookupL (getCache scope st) k ≠ some (valueToString v)) :
    (doStore k v scope st).2 = fireDidChangeStorage k scope := by
  simp [doStore, h]

theorem doStore_events_none (k : String) (v : Value) (scope : StorageScope) (st : StorageState)
    (h : lookupL (getCache scope st) k = some (valueToString v)) :
    doStore k v scope st = (st, []) := by
  simp [doStore, h]

theorem doStore_events_cases (k : String) (v : Value) (scope : StorageScope) (st : StorageState) :
    (doStore k v scope st).2 = [] ∨ (doStore k v scope st).2 = fireDidChangeStorage k scope := by
  by_cases h : lookupL (getCache scope st) k = some (valueToString v) <;> simp [doStore, h]

theorem doRemove_events_cases (k : String) (scope : StorageScope) (st : StorageState) :
    (doRemove k scope st).2 = [] ∨ (doRemove k scope st).2 = fireDidChangeStorage k scope := by
  by_cases h : (lookupL (getCache scope st) k).isSome <;> simp [doRemove, h]

theorem updateKeyTarget_events_cases (k : String) (scope : StorageScope)
    (tg : Option StorageTarget) (st : StorageState) :
    (updateKeyTarget k scope tg st).2 = []
      ∨ (updateKeyTarget k scope tg st).2 = fireDidChangeStorage TARGET_KEY scope := by
  cases tg with
  | none =>
    by_cases h2 : (lookupL (getKeyTargets scope st) k).isSome
    · simp only [updateKeyTarget, h2, if_pos]
      exact doStore_events_cases _ _ _ _
    · simp [updateKeyTarget, h2]
  | some t =>
    by_cases h2 : lookupL (getKeyTargets scope st) k = some t
    · simp [updateKeyTarget, h2]
    · simp only [updateKeyTarget, h2, if_neg, if_false]
      exact doStore_events_cases _ _ _ _

theorem updateKeyTarget_set_fires (k : String) (scope : StorageScope) (t : StorageTarget)
    (st : StorageState) (h : lookupL (getKeyTargets scope st) k ≠ some t) :
    (updateKeyTarget k scope (some t) st).2 = fireDidChangeStorage TARGET_KEY scope := by
  rw [updateKeyTarget]
  simp only [h, if_neg, if_false]
  apply doStore_events_fire
  intro hc
  have hm : getKeyTargets scope st = setL (getKeyTargets scope st) k t := by
    nth_rewrite 1 [getKeyTargets]
    rw [get_none_eq_lookup, hc]
    simp [valueToString, stringifyTargets_ne_empty,
      jsonParse_stringify _ (nodupKeys_setL _ k t (getKeyTargets_nodup scope st))]
  have h2 := lookupL_setL_self (getKeyTargets scope st) k t
  rw [← hm] at h2
  exact h h2

theorem updateKeyTarget_remove_fires (k : String) (scope : StorageScope) (st : StorageState)
    (h : (lookupL (getKeyTargets scope st) k).isSome = true) :
    (updateKeyTarget k scope none st).2 = fireDidChangeStorage TARGET_KEY scope := by
  rw [updateKeyTarget]
  simp only [h, if_pos]
  apply doStore_events_fire
  intro hc
  have hm : getKeyTargets scope st = eraseL (getKeyTargets scope st) k := by
    nth_rewrite 1 [getKeyTargets]
    rw [get_none_eq_lookup, hc]
    simp [valueToString, stringifyTargets_ne_empty,
      jsonParse_stringify _ (nodupKeys_eraseL _ k (getKeyTargets_nodup scope st))]
  have h2 := lookupL_eraseL_self (getKeyTargets scope st) k (getKeyTargets_nodup scope st)
  rw [← hm] at h2
  rw [h2] at h
  simp at h

theorem updateKeyTarget_set_noop (k : String) (scope : StorageScope) (t : StorageTarget)
    (st : StorageState) (h : lookupL (getKeyTargets scope st) k = some t) :
    updateKeyTarget k scope (some t) st = (st, []) := by
  simp [updateKeyTarget, h]

end VSCodeStorage

namespace VSCodeStorage

theorem getKeyTargets_eq_nil_of_absent (scope : StorageScope) (st : StorageState)
    (h : lookupL (getCache scope st) TARGET_KEY = none) : getKeyTargets scope st = [] := by
  rw [getKeyTargets, get_none_eq_lookup, h]

theorem store2_cache_self (k : String) (v : Value) (scope : StorageScope) (t : StorageTarget)
    (st : StorageState) (hk : k ≠ TARGET_KEY) :
    lookupL (getCache scope (store2 k (some v) scope t st).1) k = some (valueToString v) := by
  simp only [store2]
  rw [updateKeyTarget_cache_ne _ _ _ _ _ hk]
  exact doStore_cache_self k v scope st

theorem store2_targets (k : String) (v : Value) (scope : StorageScope) (t : StorageTarget)
    (st : StorageState) :
    getKeyTargets scope (store2 k (some v) scope t st).1
      = setL (getKeyTargets scope (doStore k v scope st).1) k t := by
  simp only [store2]
  exact updateKeyTarget_set_targets k scope t (doStore k v scope st).1

theorem store2_targets_ne (k : String) (v : Value) (scope : StorageScope) (t : StorageTarget)
    (st : StorageState) (hk : k ≠ TARGET_KEY) :
    getKeyTargets scope (store2 k (some v) scope t st).1
      = setL (getKeyTargets scope st) k t := by
  rw [store2_targets, getKeyTargets_doStore_ne _ _ _ _ hk]

theorem remove_cache_self (k : String) (scope : StorageScope) (st : StorageState)
    (h : nodupKeys (getCache scope st) = true) :
    lookupL (getCache scope (remove k scope st).1) k = none := by
  by_cases hk : k = TARGET_KEY
  · subst hk
    have h1 : lookupL (getCache scope (doRemove TARGET_KEY scope st).1) TARGET_KEY = none :=
      doRemove_cache_self _ _ _ h
    have h2 : getKeyTargets scope (doRemove TARGET_KEY scope st).1 = [] :=
      getKeyTargets_eq_nil_of_absent _ _ h1
    simp only [remove]
    simp [updateKeyTarget, h2, lookupL, h1]
  · simp only [remove]
    rw [updateKeyTarget_cache_ne _ _ _ _ _ hk]
    exact doRemove_cache_self _ _ _ h

theorem remove_targets (k : String) (scope : StorageScope) (st : StorageState) :
    getKeyTargets scope (remove k scope st).1
      = eraseL (getKeyTargets scope (doRemove k scope st).1) k := by
  simp only [remove]
  exact updateKeyTarget_remove_targets k scope (doRemove k scope st).1

theorem remove_targets_ne (k : String) (scope : StorageScope) (st : StorageState)
    (hk : k ≠ TARGET_KEY) :
    getKeyTargets scope (remove k scope st).1 = eraseL (getKeyTargets scope st) k := by
  rw [remove_targets, getKeyTargets_doRemove_ne _ _ _ hk]

theorem store2_repeat_noop (k : String) (v : Value) (scope : StorageScope) (t : StorageTarget)
    (st : StorageState) (hk : k ≠ TARGET_KEY) :
    store2 k (some v) scope t ((store2 k (some v) scope t st).1)
      = ((store2 k (some v) scope t st).1, []) := by
  have hc := store2_cache_self k v scope t st hk
  have ht := store2_targets_ne k v scope t st hk
  generalize hst : (store2 k (some v) scope t st).1 = st1 at hc ht ⊢
  have hl : lookupL (getKeyTargets scope st1) k = some t := by
    rw [ht]
    exact lookupL_setL_self _ _ _
  simp only [store2]
  rw [doStore_events_none _ _ _ _ hc]
  simp only []
  rw [updateKeyTarget_set_noop _ _ _ _ hl]
  simp

theorem countChange_append (key : String) (scope : StorageScope) (a b : List StorageEvent) :
    countChange key scope (a ++ b) = countChange key scope a + countChange key scope b := by
  simp [countChange, List.filter_append]

theorem countTargetChange_append (scope : StorageScope) (a b : List StorageEvent) :
    countTargetChange scope (a ++ b)
      = countTargetChange scope a + countTargetChange scope b := by
  simp [countTargetChange, List.filter_append]

theorem countWillSave_append (a b : List StorageEvent) :
    countWillSave (a ++ b) = countWillSave a + countWillSave b := by
  simp [countWillSave, List.filter_append]

theorem countChange_fire (key : String) (scope : StorageScope) (k : String) :
    countChange key scope (fireDidChangeStorage k scope) = if k = key then 1 else 0 := by
  by_cases h : k = key
  · subst h
    by_cases h2 : k = TARGET_KEY <;> simp [fireDidChangeStorage, countChange, h2]
  · by_cases h2 : k = TARGET_KEY
    · subst h2
      simp [fireDidChangeStorage, countChange, h]
    · simp [fireDidChangeStorage, countChange, h, h2]

theorem countTargetChange_fire (scope : StorageScope) (k : String) :
    countTargetChange scope (fireDidChangeStorage k scope)
      = if k = TARGET_KEY then 1 else 0 := by
  by_cases h : k = TARGET_KEY <;> simp [fireDidChangeStorage, countTargetChange, h]

theorem countWillSave_fire (k : String) (scope : StorageScope) :
    countWillSave (fireDidChangeStorage k scope) = 0 := by
  by_cases h : k = TARGET_KEY <;> simp [fireDidChangeStorage, countWillSave, isWillSaveEvent, h]

theorem countWillSave_store2 (k : String) (v : Value) (scope : StorageScope)
    (t : StorageTarget) (st : StorageState) :
    countWillSave (store2 k (some v) scope t st).2 = 0 := by
  simp only [store2]
  rw [countWillSave_append]
  have hnil : countWillSave [] = 0 := rfl
  rcases doStore_events_cases k v scope st with hA | hA <;>
    rcases updateKeyTarget_events_cases k scope (some t) (doStore k v scope st).1 with hB | hB <;>
      simp [hA, hB, countWillSave_fire, hnil]

end VSCodeStorage

namespace VSCodeStorage

/-- C1, counterexample: the round trip fails for the reserved `TARGET_KEY`.
Storing the string "x" under `TARGET_KEY` and reading it back does not return
"x", because the subsequent key-target-map update re-serializes the map over
the entry. -/
theorem store2_roundtrip_fails_on_target_key :
    get TARGET_KEY .GLOBAL none
        ((store2 TARGET_KEY (some (.str "x")) .GLOBAL .USER initialState).1) ≠ some "x" := by
  decide

/-- C1, amended to keys other than the reserved `TARGET_KEY`: storing a
string, boolean, or integer number with `store2` and reading it back with the
matching typed getter returns the value — the boolean via exact comparison of
the stored text with "true", the number via base-10 `parseInt`, the string
exactly. -/
theorem store2_typed_getter_roundtrip (st : StorageState) (scope : StorageScope)
    (target : StorageTarget) (k : String) (s : String) (b : Bool) (n : Int)
    (hk : k ≠ TARGET_KEY) :
    get k scope none ((store2 k (some (.str s)) scope target st).1) = some s
      ∧ getBoolean k scope none ((store2 k (some (.bool b)) scope target st).1) = some b
      ∧ getNumber k scope none ((store2 k (some (.num n)) scope target st).1)
          = some (.int n) := by
  refine ⟨?_, ?_, ?_⟩
  · rw [get, store2_cache_self _ _ _ _ _ hk]
    simp [valueToString]
  · rw [getBoolean, store2_cache_self _ _ _ _ _ hk]
    cases b <;> simp +decide [valueToString]
  · rw [getNumber, store2_cache_self _ _ _ _ _ hk]
    simp [valueToString, parseIntB10_intToString]

/-- C1, witness: a concrete instance of the amended round trip. -/
theorem store2_typed_getter_roundtrip_witness :
    ("font" : String) ≠ TARGET_KEY
      ∧ (get "font" .GLOBAL none
            ((store2 "font" (some (.str "hello")) .GLOBAL .USER initialState).1) = some "hello"
          ∧ getBoolean "font" .GLOBAL none
              ((store2 "font" (some (.bool true)) .GLOBAL .USER initialState).1) = some true
          ∧ getNumber "font" .GLOBAL none
              ((store2 "font" (some (.num (-42))) .GLOBAL .USER initialState).1)
                = some (.int (-42))) :=
  ⟨by decide, store2_typed_getter_roundtrip initialState .GLOBAL .USER "font" "hello" true
    (-42) (by decide)⟩

/-- C2, counterexample: for the reserved `TARGET_KEY` two identical `store2`
calls from the initial state emit four change events for that key, not one. -/
theorem store2_idempotent_fails_on_target_key :
    countChange TARGET_KEY .GLOBAL
        ((store2 TARGET_KEY (some (.str "x")) .GLOBAL .USER initialState).2 ++
          (store2 TARGET_KEY (some (.str "x")) .GLOBAL .USER
            ((store2 TARGET_KEY (some (.str "x")) .GLOBAL .USER initialState).1)).2) = 4 := by
  decide

/-- C2, amended to keys other than the reserved `TARGET_KEY` and states where
the key does not already hold the serialized text: the two identical `store2`
calls emit exactly one change event for (key, partition) in total, and the
second call emits no event at all (it is a complete no-op). -/
theorem store2_idempotent_single_change_event (st : StorageState) (k : String) (v : Value)
    (scope : StorageScope) (t : StorageTarget) (hk : k ≠ TARGET_KEY)
    (hv : lookupL (getCache scope st) k ≠ some (valueToString v)) :
    countChange k scope
        ((store2 k (some v) scope t st).2
          ++ (store2 k (some v) scope t ((store2 k (some v) scope t st).1)).2) = 1
      ∧ store2 k (some v) scope t ((store2 k (some v) scope t st).1)
          = ((store2 k (some v) scope t st).1, []) := by
  have hrep := store2_repeat_noop k v scope t st hk
  refine ⟨?_, hrep⟩
  rw [countChange_append, hrep]
  have h1 : countChange k scope (store2 k (some v) scope t st).2 = 1 := by
    simp only [store2]
    rw [countChange_append, doStore_events_fire _ _ _ _ hv, countChange_fire]
    rcases updateKeyTarget_events_cases k scope (some t) (doStore k v scope st).1 with hB | hB
    · simp [hB, countChange]
    · rw [hB, countChange_fire]
      simp [Ne.symm hk]
  rw [h1]
  rfl

/-- C2, witness: a concrete instance of the amended idempotent-write
property. -/
theorem store2_idempotent_single_change_event_witness :
    (("flag" : String) ≠ TARGET_KEY
        ∧ lookupL (getCache .GLOBAL initialState) "flag" ≠ some (valueToString (.bool true)))
      ∧ (countChange "flag" .GLOBAL
            ((store2 "flag" (some (.bool true)) .GLOBAL .MACHINE initialState).2
              ++ (store2 "flag" (some (.bool true)) .GLOBAL .MACHINE
                  ((store2 "flag" (some (.bool true)) .GLOBAL .MACHINE initialState).1)).2) = 1
          ∧ store2 "flag" (some (.bool true)) .GLOBAL .MACHINE
              ((store2 "flag" (some (.bool true)) .GLOBAL .MACHINE initialState).1)
                = ((store2 "flag" (some (.bool true)) .GLOBAL .MACHINE initialState).1, [])) :=
  ⟨⟨by decide, by decide⟩,
    store2_idempotent_single_change_event initialState "flag" (.bool true) .GLOBAL .MACHINE
      (by decide) (by decide)⟩

/-- C3: after `remove(key, partition)` — from any state whose partition cache
has distinct keys, as every JavaScript `Map` does — `get(key, partition,
fallback)` returns the fallback and `keys(partition, target)` does not
contain the key, for either target. -/
theorem remove_clears_value_and_keys (st : StorageState) (k : String) (scope : StorageScope)
    (fb : Option String) (t : StorageTarget) (h : nodupKeys (getCache scope st) = true) :
    get k scope fb ((remove k scope st).1) = fb
      ∧ k ∉ keys scope t ((remove k scope st).1) := by
  constructor
  · rw [get, remove_cache_self _ _ _ h]
  · rw [keys]
    intro hm
    have h2 := (mem_keys_iff _ k t (getKeyTargets_nodup _ _)).mp hm
    by_cases hk : k = TARGET_KEY
    · subst hk
      rw [getKeyTargets_eq_nil_of_absent _ _ (remove_cache_self _ _ _ h)] at h2
      simp [lookupL] at h2
    · rw [remove_targets_ne _ _ _ hk,
        lookupL_eraseL_self _ _ (getKeyTargets_nodup scope st)] at h2
      simp at h2

/-- C3, witness: a concrete instance of the removal property. -/
theorem remove_clears_value_and_keys_witness :
    nodupKeys (getCache .GLOBAL
        ((store2 "flag" (some (.bool true)) .GLOBAL .MACHINE initialState).1)) = true
      ∧ (get "flag" .GLOBAL (some "fb")
            ((remove "flag" .GLOBAL
              ((store2 "flag" (some (.bool true)) .GLOBAL .MACHINE initialState).1)).1)
              = some "fb"
          ∧ "flag" ∉ keys .GLOBAL .MACHINE
              ((remove "flag" .GLOBAL
                ((store2 "flag" (some (.bool true)) .GLOBAL .MACHINE initialState).1)).1)) :=
  ⟨by decide,
    remove_clears_value_and_keys
      ((store2 "flag" (some (.bool true)) .GLOBAL .MACHINE initialState).1)
      "flag" .GLOBAL (some "fb") .MACHINE (by decide)⟩

/-- C5: when the text stored under the reserved `TARGET_KEY` fails to parse
as a key-target JSON object, `keys` yields the empty sequence (fail open),
and corrupting `TARGET_KEY` through the backend leaves the ordinary typed
reads of every other key unchanged. -/
theorem malformed_target_map_fail_open (st : StorageState) (scope : StorageScope)
    (t : StorageTarget) (bad : String) (k : String) (fbs : Option String) (fbb : Option Bool)
    (fbn : Option JsNum) (hbad : jsonParseTargets bad = none)
    (hTK : lookupL (getCache scope st) TARGET_KEY = some bad) (hk : k ≠ TARGET_KEY) :
    keys scope t st = []
      ∧ get k scope fbs ((doStore TARGET_KEY (.str bad) scope st).1) = get k scope fbs st
      ∧ getBoolean k scope fbb ((doStore TARGET_KEY (.str bad) scope st).1)
          = getBoolean k scope fbb st
      ∧ getNumber k scope fbn ((doStore TARGET_KEY (.str bad) scope st).1)
          = getNumber k scope fbn st := by
  have hT : getKeyTargets scope st = [] := by
    rw [getKeyTargets, get_none_eq_lookup, hTK]
    by_cases hbe : bad = "" <;> simp [hbe, hbad]
  refine ⟨?_, ?_, ?_, ?_⟩
  · rw [keys, hT]
    rfl
  · rw [get, get, doStore_cache_ne _ _ _ _ _ hk]
  · rw [getBoolean, getBoolean, doStore_cache_ne _ _ _ _ _ hk]
  · rw [getNumber, getNumber, doStore_cache_ne _ _ _ _ _ hk]

/-- C5, witness: a concrete corrupted state. -/
theorem malformed_target_map_fail_open_witness :
    (jsonParseTargets "corrupt" = none
        ∧ lookupL (getCache .GLOBAL ((doStore TARGET_KEY (.str "corrupt") .GLOBAL
            initialState).1)) TARGET_KEY = some "corrupt"
        ∧ ("k" : String) ≠ TARGET_KEY)
      ∧ (keys .GLOBAL .USER ((doStore TARGET_KEY (.str "corrupt") .GLOBAL initialState).1) = []
          ∧ get "k" .GLOBAL (some "fb")
              ((doStore TARGET_KEY (.str "corrupt") .GLOBAL
                ((doStore TARGET_KEY (.str "corrupt") .GLOBAL initialState).1)).1)
              = get "k" .GLOBAL (some "fb")
                  ((doStore TARGET_KEY (.str "corrupt") .GLOBAL initialState).1)
          ∧ getBoolean "k" .GLOBAL (some false)
              ((doStore TARGET_KEY (.str "corrupt") .GLOBAL
                ((doStore TARGET_KEY (.str "corrupt") .GLOBAL initialState).1)).1)
              = getBoolean "k" .GLOBAL (some false)
                  ((doStore TARGET_KEY (.str "corrupt") .GLOBAL initialState).1)
          ∧ getNumber "k" .GLOBAL none
              ((doStore TARGET_KEY (.str "corrupt") .GLOBAL
                ((doStore TARGET_KEY (.str "corrupt") .GLOBAL initialState).1)).1)
              = getNumber "k" .GLOBAL none
                  ((doStore TARGET_KEY (.str "corrupt") .GLOBAL initialState).1)) :=
  ⟨⟨by decide, by decide, by decide⟩,
    malformed_target_map_fail_open
      ((doStore TARGET_KEY (.str "corrupt") .GLOBAL initialState).1)
      .GLOBAL .USER "corrupt" "k" (some "fb") (some false) none
      (by decide) (by decide) (by decide)⟩

end VSCodeStorage

namespace VSCodeStorage

/-- C7: `getBoolean` substitutes the fallback exactly when no text is stored;
when text is stored it returns whether that text equals the literal "true",
independently of the fallback — a present-but-falsy value never yields the
fallback. -/
theorem getBoolean_fallback_semantics (st : StorageState) (k : String) (scope : StorageScope)
    (fb : Option Bool) :
    getBoolean k scope fb st
        = (get k scope none st).elim fb (fun s => some (decide (s = "true")))
      ∧ (getBoolean k scope none st = none ↔ get k scope none st = none) := by
  rw [get_none_eq_lookup]
  constructor
  · rw [getBoolean]
    cases lookupL (getCache scope st) k <;> simp
  · rw [getBoolean]
    cases lookupL (getCache scope st) k <;> simp

/-- C8: `flush` first fires one will-save-state event with reason NONE —
delivering it synchronously to the subscriber, modelled as a handler that
performs a `store2` — and only then runs the backend `doFlush`, so the
subscriber's write is contained in the state the flush completes with; the
trace contains exactly one will-save-state event. -/
theorem flush_broadcast_before_doFlush (st : StorageState) (k : String) (v : Value)
    (scope : StorageScope) (t : StorageTarget) :
    flush (fun s => store2 k (some v) scope t s) st
        = ((store2 k (some v) scope t st).1,
            .willSave .NONE :: (store2 k (some v) scope t st).2)
      ∧ countWillSave (flush (fun s => store2 k (some v) scope t s) st).2 = 1 := by
  have he : flush (fun s => store2 k (some v) scope t s) st
      = ((store2 k (some v) scope t st).1,
          .willSave .NONE :: (store2 k (some v) scope t st).2) := by
    simp [flush, doFlush]
  refine ⟨he, ?_⟩
  rw [he]
  have h0 := countWillSave_store2 k v scope t st
  simp only [countWillSave, List.filter_cons, isWillSaveEvent] at h0 ⊢
  simp [h0]

/-- C9, counterexample: `isNew` is not false in every reachable state — a
caller storing the text "true" under the reserved `IS_NEW_KEY` makes it
true. -/
theorem isNew_true_after_reserved_key_store :
    isNew .GLOBAL ((store2 IS_NEW_KEY (some (.bool true)) .GLOBAL .USER initialState).1)
      = true := by
  decide

/-- C9, amended: `isNew` is false in the initial state and in every state in
which the text "true" is not stored under the reserved `IS_NEW_KEY` — in
particular in every state reachable without writing that reserved key — and
`migrate` completes as a no-op leaving the state unchanged. -/
theorem isNew_false_amended (st : StorageState) (scope : StorageScope)
    (h : lookupL (getCache scope st) IS_NEW_KEY ≠ some "true") :
    isNew scope st = false
      ∧ (∀ scope2 : StorageScope, isNew scope2 initialState = false)
      ∧ migrate st = st := by
  refine ⟨?_, ?_, rfl⟩
  · rw [isNew, getBoolean]
    cases hl : lookupL (getCache scope st) IS_NEW_KEY with
    | none => simp
    | some s =>
      have hs : s ≠ "true" := fun he => h (he ▸ hl)
      simp [hs]
  · intro scope2
    cases scope2 <;> rfl

/-- C9, witness: a concrete instance of the amended statement. -/
theorem isNew_false_amended_witness :
    lookupL (getCache .GLOBAL ((store2 "pref" (some (.str "true")) .GLOBAL .USER
          initialState).1)) IS_NEW_KEY ≠ some "true"
      ∧ (isNew .GLOBAL ((store2 "pref" (some (.str "true")) .GLOBAL .USER initialState).1)
            = false
          ∧ (∀ scope2 : StorageScope, isNew scope2 initialState = false)
          ∧ migrate ((store2 "pref" (some (.str "true")) .GLOBAL .USER initialState).1)
              = ((store2 "pref" (some (.str "true")) .GLOBAL .USER initialState).1)) :=
  ⟨by decide,
    isNew_false_amended ((store2 "pref" (some (.str "true")) .GLOBAL .USER initialState).1)
      .GLOBAL (by decide)⟩

/-- C10: the read operations `get`, `getBoolean`, `getNumber`, `keys`, and
`isNew`, presented in the same state-and-events shape as the mutating
operations, leave the state exactly unchanged and emit no event. -/
theorem read_operations_are_pure (st : StorageState) (k : String) (scope : StorageScope)
    (fbs : Option String) (fbb : Option Bool) (fbn : Option JsNum) (t : StorageTarget) :
    ((getOp k scope fbs st).2.1 = st ∧ (getOp k scope fbs st).2.2 = [])
      ∧ ((getBooleanOp k scope fbb st).2.1 = st ∧ (getBooleanOp k scope fbb st).2.2 = [])
      ∧ ((getNumberOp k scope fbn st).2.1 = st ∧ (getNumberOp k scope fbn st).2.2 = [])
      ∧ ((keysOp scope t st).2.1 = st ∧ (keysOp scope t st).2.2 = [])
      ∧ ((isNewOp scope st).2.1 = st ∧ (isNewOp scope st).2.2 = []) :=
  ⟨⟨rfl, rfl⟩, ⟨rfl, rfl⟩, ⟨rfl, rfl⟩, ⟨rfl, rfl⟩, ⟨rfl, rfl⟩⟩

end VSCodeStorage

namespace VSCodeStorage

theorem lookupL_map_snd {α β : Type} (g : α → β) (m : List (String × α)) (k : String) :
    lookupL (m.map (fun e => (e.1, g e.2))) k = (lookupL m k).map g := by
  induction m with
  | nil => rfl
  | cons e rest ih =>
    obtain ⟨k1, w⟩ := e
    by_cases h : k1 = k
    · simp [lookupL, h]
    · simp [lookupL, h, ih]

theorem nodupKeys_map_snd {α β : Type} (g : α → β) (m : List (String × α)) :
    nodupKeys (m.map (fun e => (e.1, g e.2))) = nodupKeys m := by
  induction m with
  | nil => rfl
  | cons e rest ih =>
    obtain ⟨k1, w⟩ := e
    simp [nodupKeys, lookupL_map_snd, ih]

theorem setL_map_snd {α β : Type} (g : α → β) (m : List (String × α)) (k : String) (v : α) :
    setL (m.map (fun e => (e.1, g e.2))) k (g v)
      = (setL m k v).map (fun e => (e.1, g e.2)) := by
  induction m with
  | nil => simp [setL]
  | cons e rest ih =>
    obtain ⟨k1, w⟩ := e
    by_cases h : k1 = k
    · simp [setL, h]
    · simp [setL, h, ih]

theorem eraseL_map_snd {α β : Type} (g : α → β) (m : List (String × α)) (k : String) :
    eraseL (m.map (fun e => (e.1, g e.2))) k = (eraseL m k).map (fun e => (e.1, g e.2)) := by
  induction m with
  | nil => simp [eraseL]
  | cons e rest ih =>
    obtain ⟨k1, w⟩ := e
    by_cases h : k1 = k
    · simp [eraseL, h]
    · simp [eraseL, h, ih]

theorem foldl_setL_id {α : Type} :
    ∀ (m acc : List (String × α)), nodupKeys (acc ++ m) = true →
      m.foldl (fun a e => setL a e.1 e.2) acc = acc ++ m := by
  intro m
  induction m with
  | nil => intro acc _; simp
  | cons e ms ih =>
    intro acc h
    obtain ⟨k, v⟩ := e
    simp only [List.foldl_cons]
    have hnone : lookupL acc k = none :=
      lookupL_acc_none_of_mem_append acc ((k, v) :: ms) k v h (List.mem_cons_self _ _)
    rw [setL_append_of_lookup_none acc k v hnone]
    have happ : (acc ++ [(k, v)]) ++ ms = acc ++ (k, v) :: ms := by simp
    rw [ih (acc ++ [(k, v)]) (by rw [happ]; exact h), happ]

theorem skipWs_cons (c : Char) (l : List Char) (h : isJsonWs c = false) :
    skipWs (c :: l) = c :: l := by
  simp [skipWs, List.dropWhile_cons, h]

theorem isJsonWs_targetChar (t : StorageTarget) : isJsonWs (targetChar t) = false := by
  cases t <;> decide

theorem isDigitC_targetChar (t : StorageTarget) : isDigitC (targetChar t) = true := by
  cases t <;> decide

end VSCodeStorage

namespace VSCodeStorage

theorem parseJsonVal_targetChar (t : StorageTarget) (fuel : Nat) (d : Char) (l : List Char)
    (hd : isDigitC d = false) :
    parseJsonVal (fuel + 1) (targetChar t :: d :: l) = some (.num (targetNum t), d :: l) := by
  have hsk : skipWs (targetChar t :: d :: l) = targetChar t :: d :: l :=
    skipWs_cons _ _ (isJsonWs_targetChar t)
  rw [parseJsonVal, hsk]
  cases t <;>
    simp +decide [targetChar, targetNum, parseJsonNat, List.takeWhile_cons,
      List.dropWhile_cons, hd, digitVal]

theorem parseJsonFields_stringifyBody :
    ∀ (m : TargetMap) (fuel : Nat) (rest : List Char), m ≠ [] → m.length + 1 ≤ fuel →
      parseJsonFields fuel (stringifyBody (m.map (fun e => (e.1.data, e.2))) ++ '}' :: rest)
        = some (m.map (fun e => (e.1, JsonVal.num (targetNum e.2))), rest) := by
  have hsA : ∀ l : List Char, skipWs (':' :: l) = ':' :: l :=
    fun l => skipWs_cons ':' l (by decide)
  have hsB : ∀ l : List Char, skipWs ('}' :: l) = '}' :: l :=
    fun l => skipWs_cons '}' l (by decide)
  have hsC : ∀ l : List Char, skipWs (',' :: l) = ',' :: l :=
    fun l => skipWs_cons ',' l (by decide)
  intro m
  induction m with
  | nil => intro fuel rest h; exact absurd rfl h
  | cons e ms ih =>
    intro fuel rest _ hlen
    obtain ⟨k, t⟩ := e
    cases fuel with
    | zero => simp at hlen
    | succ f =>
      cases ms with
      | nil =>
        have hb : stringifyBody ([((k, t) : String × StorageTarget)].map (fun e => (e.1.data, e.2)))
              ++ '}' :: rest
            = '"' :: (escKey k.data ++ '"' :: ':' :: targetChar t :: '}' :: rest) := by
          simp [stringifyBody, stringifyEntry]
        cases f with
        | zero => simp at hlen
        | succ f2 =>
          rw [hb, parseJsonFields]
          simp only [parseJKey_escKey, hsA, hsB, reduceIte,
            parseJsonVal_targetChar t f2 '}' rest (by decide), string_mk_data]
          simp +decide
      | cons e2 ms2 =>
        obtain ⟨l2, hl2⟩ :=
          stringifyBody_cons_shape (e2.1.data, e2.2) (ms2.map (fun e => (e.1.data, e.2)))
        have hmap2 : (e2 :: ms2).map (fun e => (e.1.data, e.2))
            = (e2.1.data, e2.2) :: ms2.map (fun e => (e.1.data, e.2)) := rfl
        have hb : stringifyBody (((k, t) :: e2 :: ms2).map (fun e => (e.1.data, e.2)))
              ++ '}' :: rest
            = '"' :: (escKey k.data ++ '"' :: ':' :: targetChar t :: ','
                :: (stringifyBody ((e2 :: ms2).map (fun e => (e.1.data, e.2))) ++ '}' :: rest)) := by
          simp [stringifyBody, stringifyEntry, hmap2, hl2]
        cases f with
        | zero => simp at hlen
        | succ f2 =>
          have hskip : skipWs (stringifyBody ((e2 :: ms2).map (fun e => (e.1.data, e.2)))
                ++ '}' :: rest)
              = stringifyBody ((e2 :: ms2).map (fun e => (e.1.data, e.2))) ++ '}' :: rest := by
            rw [hmap2, hl2, List.cons_append]
            exact skipWs_cons '"' _ (by decide)
          have hih := ih (f2 + 1) rest (by simp)
            (by simp only [List.length_cons] at hlen ⊢; omega)
          rw [hb, parseJsonFields]
          simp only [parseJKey_escKey, hsA, hsC, reduceIte,
            parseJsonVal_targetChar t f2 ','
              (stringifyBody ((e2 :: ms2).map (fun e => (e.1.data, e.2))) ++ '}' :: rest)
              (by decide),
            hskip, hih, string_mk_data]
          simp +decide

theorem jsonParseJs_stringifyTargets (m : TargetMap) (h : nodupKeys m = true) :
    jsonParseJs (stringifyTargets m) = some (targetsToJson m) := by
  cases m with
  | nil => rfl
  | cons e ms =>
    obtain ⟨l2, hl2⟩ :=
      stringifyBody_cons_shape (e.1.data, e.2) (ms.map (fun e => (e.1.data, e.2)))
    have hmap : (e :: ms).map (fun e => (e.1.data, e.2))
        = (e.1.data, e.2) :: ms.map (fun e => (e.1.data, e.2)) := rfl
    have hd : (stringifyTargets (e :: ms)).data
        = '{' :: (stringifyBody ((e :: ms).map (fun e => (e.1.data, e.2))) ++ ['}']) := rfl
    have hsO : ∀ l : List Char, skipWs ('{' :: l) = '{' :: l :=
      fun l => skipWs_cons '{' l (by decide)
    have hshape : stringifyBody ((e :: ms).map (fun e => (e.1.data, e.2))) ++ ['}']
        = '"' :: (l2 ++ ['}']) := by
      rw [hmap, hl2, List.cons_append]
    have hskip : skipWs (stringifyBody ((e :: ms).map (fun e => (e.1.data, e.2))) ++ ['}'])
        = stringifyBody ((e :: ms).map (fun e => (e.1.data, e.2))) ++ ['}'] := by
      rw [hshape]
      exact skipWs_cons '"' _ (by decide)
    have hfields : parseJsonFields
          ('{' :: (stringifyBody ((e :: ms).map (fun e => (e.1.data, e.2))) ++ ['}'])).length
          (stringifyBody ((e :: ms).map (fun e => (e.1.data, e.2))) ++ '}' :: [])
        = some ((e :: ms).map (fun e2 => (e2.1, JsonVal.num (targetNum e2.2))), []) := by
      apply parseJsonFields_stringifyBody (e :: ms) _ [] (by simp)
      have h1 := stringifyBody_length ((e :: ms).map (fun e => (e.1.data, e.2)))
      simp only [List.length_cons, List.length_append, List.length_map] at h1 ⊢
      omega
    have hnodup : nodupKeys ((e :: ms).map (fun e2 => (e2.1, JsonVal.num (targetNum e2.2))))
        = true := by
      rw [nodupKeys_map_snd (fun t => JsonVal.num (targetNum t)) (e :: ms)]
      exact h
    have hback : stringifyBody ((e :: ms).map (fun e => (e.1.data, e.2))) ++ ['}']
        = stringifyBody ((e :: ms).map (fun e => (e.1.data, e.2))) ++ '}' :: [] := rfl
    rw [jsonParseJs, hd, parseJsonVal]
    simp only [hsO, reduceIte, hskip]
    rw [hshape]
    simp only [reduceIte]
    rw [← hshape, hback, hfields]
    simp only [reduceIte]
    rw [foldl_setL_id _ [] (by simpa using hnodup)]
    simp [targetsToJson, skipWs]

end VSCodeStorage

namespace VSCodeStorage

theorem jsGetProp_targetsToJson (m : TargetMap) (k : String) :
    jsGetProp (targetsToJson m) k
      = (lookupL m k).map (fun t => JsonVal.num (targetNum t)) := by
  simp only [targetsToJson, jsGetProp]
  exact lookupL_map_snd (fun t => JsonVal.num (targetNum t)) m k

theorem jsStrictEqNum_targets (m : TargetMap) (k : String) (t : StorageTarget) :
    jsStrictEqNum (jsGetProp (targetsToJson m) k) (targetNum t)
      = decide (lookupL m k = some t) := by
  rw [jsGetProp_targetsToJson]
  cases h : lookupL m k with
  | none => simp [jsStrictEqNum]
  | some t2 => cases t2 <;> cases t <;> simp [jsStrictEqNum, targetNum]

theorem jsIsNumber_targets (m : TargetMap) (k : String) :
    jsIsNumber (jsGetProp (targetsToJson m) k) = (lookupL m k).isSome := by
  rw [jsGetProp_targetsToJson]
  cases lookupL m k <;> simp [jsIsNumber]

theorem jsSetProp_targetsToJson (m : TargetMap) (k : String) (t : StorageTarget) :
    jsSetProp (targetsToJson m) k (.num (targetNum t)) = targetsToJson (setL m k t) := by
  simp only [targetsToJson, jsSetProp]
  exact congrArg JsonVal.obj (setL_map_snd (fun t2 => JsonVal.num (targetNum t2)) m k t)

theorem jsDelete_targetsToJson (m : TargetMap) (k : String) :
    jsDelete (targetsToJson m) k = targetsToJson (eraseL m k) := by
  simp only [targetsToJson, jsDelete]
  exact congrArg JsonVal.obj (eraseL_map_snd (fun t2 => JsonVal.num (targetNum t2)) m k)

theorem jsStringify_num_target (t : StorageTarget) :
    jsStringify (.num (targetNum t)) = [targetChar t] := by
  cases t <;> rfl

theorem jsStringifyFields_targets :
    ∀ m : TargetMap,
      jsStringifyFields (m.map (fun e => (e.1, JsonVal.num (targetNum e.2))))
        = stringifyBody (m.map (fun e => (e.1.data, e.2))) := by
  intro m
  induction m with
  | nil => rfl
  | cons e ms ih =>
    cases ms with
    | nil =>
      obtain ⟨k, t⟩ := e
      simp [jsStringifyFields, stringifyBody, stringifyEntry, jsStringify_num_target]
    | cons e2 ms2 =>
      obtain ⟨k, t⟩ := e
      simp only [List.map_cons] at ih ⊢
      simp [jsStringifyFields, stringifyBody, stringifyEntry, jsStringify_num_target, ih]

theorem jsStringify_targetsToJson (m : TargetMap) :
    String.mk (jsStringify (targetsToJson m)) = stringifyTargets m := by
  simp only [targetsToJson, jsStringify, stringifyTargets, jsStringifyFields_targets]

theorem getKeyTargetsJs_absent (scope : StorageScope) (st : StorageState)
    (h : lookupL (getCache scope st) TARGET_KEY = none) :
    getKeyTargetsJs scope st = .obj [] := by
  rw [getKeyTargetsJs, get_none_eq_lookup, h]

theorem getKeyTargetsJs_doStore_ne (k : String) (v : Value) (scope : StorageScope)
    (st : StorageState) (h : k ≠ TARGET_KEY) :
    getKeyTargetsJs scope (doStore k v scope st).1 = getKeyTargetsJs scope st := by
  rw [getKeyTargetsJs, getKeyTargetsJs, get_none_eq_lookup, get_none_eq_lookup,
    doStore_cache_ne k v scope st TARGET_KEY (Ne.symm h)]

theorem getKeyTargetsJs_doRemove_ne (k : String) (scope : StorageScope)
    (st : StorageState) (h : k ≠ TARGET_KEY) :
    getKeyTargetsJs scope (doRemove k scope st).1 = getKeyTargetsJs scope st := by
  rw [getKeyTargetsJs, getKeyTargetsJs, get_none_eq_lookup, get_none_eq_lookup,
    doRemove_cache_ne k scope st TARGET_KEY (Ne.symm h)]

theorem getKeyTargetsJs_doStore_target (scope : StorageScope) (st : StorageState)
    (mm : TargetMap) (hnd : nodupKeys mm = true) :
    getKeyTargetsJs scope (doStore TARGET_KEY (.str (stringifyTargets mm)) scope st).1
      = targetsToJson mm := by
  rw [getKeyTargetsJs, get_none_eq_lookup]
  have hc : lookupL (getCache scope
        (doStore TARGET_KEY (.str (stringifyTargets mm)) scope st).1) TARGET_KEY
      = some (stringifyTargets mm) := doStore_cache_self TARGET_KEY _ scope st
  rw [hc]
  simp [stringifyTargets_ne_empty, jsonParseJs_stringifyTargets mm hnd]

theorem getKeyTargetsJs_good (scope : StorageScope) (st : StorageState)
    (hg : goodTargetText scope st) :
    ∃ mm : TargetMap, nodupKeys mm = true ∧ getKeyTargetsJs scope st = targetsToJson mm
      ∧ (lookupL (getCache scope st) TARGET_KEY = none
          ∨ lookupL (getCache scope st) TARGET_KEY = some ""
          ∨ lookupL (getCache scope st) TARGET_KEY = some (stringifyTargets mm)) := by
  rcases hg with h | h | ⟨mm, hnd, h⟩
  · exact ⟨[], rfl, getKeyTargetsJs_absent scope st h, Or.inl h⟩
  · refine ⟨[], rfl, ?_, Or.inr (Or.inl h)⟩
    rw [getKeyTargetsJs, get_none_eq_lookup, h]
    simp [targetsToJson]
  · refine ⟨mm, hnd, ?_, Or.inr (Or.inr h)⟩
    rw [getKeyTargetsJs, get_none_eq_lookup, h]
    simp [stringifyTargets_ne_empty, jsonParseJs_stringifyTargets mm hnd]

end VSCodeStorage

namespace VSCodeStorage

theorem updateKeyTargetJs_cache_ne (k : String) (scope : StorageScope)
    (tg : Option StorageTarget) (st : StorageState) (key : String) (h : key ≠ TARGET_KEY) :
    lookupL (getCache scope (updateKeyTargetJs k scope tg st).1) key
      = lookupL (getCache scope st) key := by
  cases tg with
  | none =>
    cases h2 : jsIsNumber (jsGetProp (getKeyTargetsJs scope st) k) <;>
      simp [updateKeyTargetJs, h2, doStore_cache_ne _ _ _ _ _ h]
  | some t =>
    cases h2 : jsStrictEqNum (jsGetProp (getKeyTargetsJs scope st) k) (targetNum t) <;>
      simp [updateKeyTargetJs, h2, doStore_cache_ne _ _ _ _ _ h]

theorem updateKeyTargetJs_set_targets (k : String) (scope : StorageScope) (t : StorageTarget)
    (st : StorageState) (mm : TargetMap)
    (hm : getKeyTargetsJs scope st = targetsToJson mm) (hnd : nodupKeys mm = true) :
    getKeyTargetsJs scope (updateKeyTargetJs k scope (some t) st).1
      = targetsToJson (setL mm k t) := by
  rw [updateKeyTargetJs]
  simp only [hm, jsStrictEqNum_targets]
  by_cases h : lookupL mm k = some t
  · have hc : decide (lookupL mm k = some t) = true := by simp [h]
    simp only [hc, if_true]
    rw [setL_eq_of_lookup mm k t h]
    exact hm
  · have hc : decide (lookupL mm k = some t) = false := by simp [h]
    simp only [hc, Bool.false_eq_true, if_false]
    rw [jsSetProp_targetsToJson, jsStringify_targetsToJson]
    exact getKeyTargetsJs_doStore_target scope st _ (nodupKeys_setL mm k t hnd)

theorem updateKeyTargetJs_remove_targets (k : String) (scope : StorageScope)
    (st : StorageState) (mm : TargetMap)
    (hm : getKeyTargetsJs scope st = targetsToJson mm) (hnd : nodupKeys mm = true) :
    getKeyTargetsJs scope (updateKeyTargetJs k scope none st).1
      = targetsToJson (eraseL mm k) := by
  rw [updateKeyTargetJs]
  simp only [hm, jsIsNumber_targets]
  by_cases h : (lookupL mm k).isSome
  · simp only [h, if_true]
    rw [jsDelete_targetsToJson, jsStringify_targetsToJson]
    exact getKeyTargetsJs_doStore_target scope st _ (nodupKeys_eraseL mm k hnd)
  · simp only [h, Bool.false_eq_true, if_false]
    rw [eraseL_eq_of_lookup_none mm k (by simpa using h)]
    exact hm

theorem updateKeyTargetJs_set_fires (k : String) (scope : StorageScope) (t : StorageTarget)
    (st : StorageState) (hg : goodTargetText scope st)
    (h : jsStrictEqNum (jsGetProp (getKeyTargetsJs scope st) k) (targetNum t) = false) :
    (updateKeyTargetJs k scope (some t) st).2 = fireDidChangeStorage TARGET_KEY scope := by
  obtain ⟨mm, hnd, hm, hcase⟩ := getKeyTargetsJs_good scope st hg
  have hlk : lookupL mm k ≠ some t := by
    rw [hm, jsStrictEqNum_targets] at h
    simpa using h
  rw [updateKeyTargetJs]
  simp only [h, Bool.false_eq_true, if_false]
  rw [hm, jsSetProp_targetsToJson, jsStringify_targetsToJson]
  apply doStore_events_fire
  intro hc
  have hc2 : lookupL (getCache scope st) TARGET_KEY
      = some (stringifyTargets (setL mm k t)) := hc
  rcases hcase with hC | hC | hC
  · rw [hC] at hc2
    exact absurd hc2 (by simp)
  · rw [hC] at hc2
    have he : "" = stringifyTargets (setL mm k t) := by simpa using hc2
    exact stringifyTargets_ne_empty _ he.symm
  · rw [hC] at hc2
    have he : stringifyTargets mm = stringifyTargets (setL mm k t) := by simpa using hc2
    have h1 := jsonParse_stringify mm hnd
    have h2 := jsonParse_stringify (setL mm k t) (nodupKeys_setL mm k t hnd)
    rw [he, h2] at h1
    have hme : mm = setL mm k t := by
      have := Option.some.inj h1
      exact this.symm
    apply hlk
    rw [hme]
    exact lookupL_setL_self mm k t

theorem updateKeyTargetJs_remove_fires (k : String) (scope : StorageScope)
    (st : StorageState) (hg : goodTargetText scope st)
    (h : jsIsNumber (jsGetProp (getKeyTargetsJs scope st) k) = true) :
    (updateKeyTargetJs k scope none st).2 = fireDidChangeStorage TARGET_KEY scope := by
  obtain ⟨mm, hnd, hm, hcase⟩ := getKeyTargetsJs_good scope st hg
  have hlk : (lookupL mm k).isSome = true := by
    rw [hm, jsIsNumber_targets] at h
    exact h
  rw [updateKeyTargetJs]
  simp only [h, if_true]
  rw [hm, jsDelete_targetsToJson, jsStringify_targetsToJson]
  apply doStore_events_fire
  intro hc
  have hc2 : lookupL (getCache scope st) TARGET_KEY
      = some (stringifyTargets (eraseL mm k)) := hc
  rcases hcase with hC | hC | hC
  · rw [hC] at hc2
    exact absurd hc2 (by simp)
  · rw [hC] at hc2
    have he : "" = stringifyTargets (eraseL mm k) := by simpa using hc2
    exact stringifyTargets_ne_empty _ he.symm
  · rw [hC] at hc2
    have he : stringifyTargets mm = stringifyTargets (eraseL mm k) := by simpa using hc2
    have h1 := jsonParse_stringify mm hnd
    have h2 := jsonParse_stringify (eraseL mm k) (nodupKeys_eraseL mm k hnd)
    rw [he, h2] at h1
    have hme : mm = eraseL mm k := by
      have := Option.some.inj h1
      exact this.symm
    have hnone := lookupL_eraseL_self mm k hnd
    rw [← hme] at hnone
    rw [hnone] at hlk
    simp at hlk

theorem updateKeyTargetJs_events_cases (k : String) (scope : StorageScope)
    (tg : Option StorageTarget) (st : StorageState) :
    (updateKeyTargetJs k scope tg st).2 = []
      ∨ (updateKeyTargetJs k scope tg st).2 = fireDidChangeStorage TARGET_KEY scope := by
  cases tg with
  | none =>
    cases h2 : jsIsNumber (jsGetProp (getKeyTargetsJs scope st) k)
    · left
      simp [updateKeyTargetJs, h2]
    · rw [updateKeyTargetJs]
      simp only [h2, if_true]
      exact doStore_events_cases _ _ _ _
  | some t =>
    cases h2 : jsStrictEqNum (jsGetProp (getKeyTargetsJs scope st) k) (targetNum t)
    · rw [updateKeyTargetJs]
      simp only [h2, Bool.false_eq_true, if_false]
      exact doStore_events_cases _ _ _ _
    · left
      simp [updateKeyTargetJs, h2]

theorem updateKeyTargetJs_set_state (k : String) (scope : StorageScope) (t : StorageTarget)
    (st : StorageState) (mm : TargetMap)
    (hm : getKeyTargetsJs scope st = targetsToJson mm) :
    (updateKeyTargetJs k scope (some t) st).1 = st
      ∨ (updateKeyTargetJs k scope (some t) st).1
          = (doStore TARGET_KEY (.str (stringifyTargets (setL mm k t))) scope st).1 := by
  rw [updateKeyTargetJs]
  cases h2 : jsStrictEqNum (jsGetProp (getKeyTargetsJs scope st) k) (targetNum t)
  · right
    simp only [h2, Bool.false_eq_true, if_false]
    rw [hm, jsSetProp_targetsToJson, jsStringify_targetsToJson]
  · left
    simp [h2]

end VSCodeStorage

namespace VSCodeStorage

theorem goodTargetText_doStore_ne (k : String) (v : Value) (scope : StorageScope)
    (st : StorageState) (hk : k ≠ TARGET_KEY) (hg : goodTargetText scope st) :
    goodTargetText scope (doStore k v scope st).1 := by
  rcases hg with h | h | ⟨mm, hnd, h⟩
  · exact Or.inl (by rw [doStore_cache_ne k v scope st TARGET_KEY (Ne.symm hk)]; exact h)
  · exact Or.inr (Or.inl
      (by rw [doStore_cache_ne k v scope st TARGET_KEY (Ne.symm hk)]; exact h))
  · exact Or.inr (Or.inr ⟨mm, hnd,
      by rw [doStore_cache_ne k v scope st TARGET_KEY (Ne.symm hk)]; exact h⟩)

theorem goodTargetText_doRemove_ne (k : String) (scope : StorageScope)
    (st : StorageState) (hk : k ≠ TARGET_KEY) (hg : goodTargetText scope st) :
    goodTargetText scope (doRemove k scope st).1 := by
  rcases hg with h | h | ⟨mm, hnd, h⟩
  · exact Or.inl (by rw [doRemove_cache_ne k scope st TARGET_KEY (Ne.symm hk)]; exact h)
  · exact Or.inr (Or.inl
      (by rw [doRemove_cache_ne k scope st TARGET_KEY (Ne.symm hk)]; exact h))
  · exact Or.inr (Or.inr ⟨mm, hnd,
      by rw [doRemove_cache_ne k scope st TARGET_KEY (Ne.symm hk)]; exact h⟩)

theorem goodTargetText_updateKeyTargetJs_set (k : String) (scope : StorageScope)
    (t : StorageTarget) (st : StorageState) (hg : goodTargetText scope st) :
    goodTargetText scope (updateKeyTargetJs k scope (some t) st).1 := by
  obtain ⟨mm, hnd, hm, _⟩ := getKeyTargetsJs_good scope st hg
  rcases updateKeyTargetJs_set_state k scope t st mm hm with h | h
  · rw [h]
    exact hg
  · rw [h]
    exact Or.inr (Or.inr ⟨setL mm k t, nodupKeys_setL mm k t hnd,
      doStore_cache_self TARGET_KEY _ scope st⟩)

theorem store2Js_cache_self (k : String) (v : Value) (scope : StorageScope)
    (t : StorageTarget) (st : StorageState) (hk : k ≠ TARGET_KEY) :
    lookupL (getCache scope (store2Js k (some v) scope t st).1) k
      = some (valueToString v) := by
  simp only [store2Js]
  rw [updateKeyTargetJs_cache_ne _ _ _ _ _ hk]
  exact doStore_cache_self k v scope st

theorem store2Js_targets (k : String) (v : Value) (scope : StorageScope) (t : StorageTarget)
    (st : StorageState) (mm : TargetMap) (hk : k ≠ TARGET_KEY)
    (hm : getKeyTargetsJs scope st = targetsToJson mm) (hnd : nodupKeys mm = true) :
    getKeyTargetsJs scope (store2Js k (some v) scope t st).1
      = targetsToJson (setL mm k t) := by
  simp only [store2Js]
  exact updateKeyTargetJs_set_targets k scope t (doStore k v scope st).1 mm
    (by rw [getKeyTargetsJs_doStore_ne _ _ _ _ hk]; exact hm) hnd

theorem store2Js_good (k : String) (v : Value) (scope : StorageScope) (t : StorageTarget)
    (st : StorageState) (hk : k ≠ TARGET_KEY) (hg : goodTargetText scope st) :
    goodTargetText scope (store2Js k (some v) scope t st).1 := by
  simp only [store2Js]
  exact goodTargetText_updateKeyTargetJs_set k scope t (doStore k v scope st).1
    (goodTargetText_doStore_ne k v scope st hk hg)

theorem store2Js_repeat_noop (k : String) (v : Value) (scope : StorageScope)
    (t : StorageTarget) (st : StorageState) (hk : k ≠ TARGET_KEY)
    (hg : goodTargetText scope st) :
    store2Js k (some v) scope t ((store2Js k (some v) scope t st).1)
      = ((store2Js k (some v) scope t st).1, []) := by
  obtain ⟨mm, hnd, hm, _⟩ := getKeyTargetsJs_good scope st hg
  have hc := store2Js_cache_self k v scope t st hk
  have ht := store2Js_targets k v scope t st mm hk hm hnd
  generalize hst : (store2Js k (some v) scope t st).1 = st1 at hc ht ⊢
  have hcond : jsStrictEqNum (jsGetProp (getKeyTargetsJs scope st1) k) (targetNum t)
      = true := by
    rw [ht, jsStrictEqNum_targets]
    simp [lookupL_setL_self]
  simp only [store2Js]
  rw [doStore_events_none _ _ _ _ hc]
  simp only []
  rw [updateKeyTargetJs]
  simp only [hcond, if_true]
  simp

theorem filter_targets_eq (m : TargetMap) (t : StorageTarget) :
    (m.map (fun e => (e.1, JsonVal.num (targetNum e.2)))).filter (fun e => jsEqTarget e.2 t)
      = (m.filter (fun e => decide (e.2 = t))).map
          (fun e => (e.1, JsonVal.num (targetNum e.2))) := by
  induction m with
  | nil => rfl
  | cons e ms ih =>
    obtain ⟨k, t2⟩ := e
    have hcond : jsEqTarget (JsonVal.num (targetNum t2)) t = decide (t2 = t) := by
      cases t2 <;> cases t <;> simp [jsEqTarget, jsStrictEqNum, targetNum]
    simp only [List.map_cons, List.filter_cons, hcond]
    by_cases h : t2 = t <;> simp [h, ih]

theorem mem_keysJs_targets (scope : StorageScope) (t : StorageTarget) (st : StorageState)
    (mm : TargetMap) (k : String) (hm : getKeyTargetsJs scope st = targetsToJson mm)
    (hnd : nodupKeys mm = true) :
    k ∈ keysJs scope t st ↔ lookupL mm k = some t := by
  rw [keysJs, hm]
  have hent : jsEntries (targetsToJson mm)
      = mm.map (fun e => (e.1, JsonVal.num (targetNum e.2))) := rfl
  rw [hent, filter_targets_eq]
  have hmf : (((mm.filter (fun e => decide (e.2 = t))).map
        (fun e => (e.1, JsonVal.num (targetNum e.2)))).map Prod.fst)
      = (mm.filter (fun e => decide (e.2 = t))).map Prod.fst := by
    simp [List.map_map, Function.comp]
  rw [hmf]
  exact mem_keys_iff mm k t hnd

end VSCodeStorage

namespace VSCodeStorage

/-- C4, counterexample: the claim fails on the untyped JavaScript semantics
of the key-target pathway.  Storing the text "[1]" under the reserved
`TARGET_KEY` makes `getKeyTargets` parse to an array, whose re-serialization
ignores the added non-index property, so the key-target write silently
no-ops: the just-written `TARGET_KEY` is not in `keys(GLOBAL, USER)`, and an
ordinary key written next from that reachable state is not in `keys`
either. -/
theorem keys_target_filtering_fails_on_poisoned_map :
    TARGET_KEY ∉ keysJs .GLOBAL .USER
        ((store2Js TARGET_KEY (some (.str "[1]")) .GLOBAL .USER initialState).1)
      ∧ "k" ∉ keysJs .GLOBAL .USER
          ((store2Js "k" (some (.str "v")) .GLOBAL .USER
            ((store2Js TARGET_KEY (some (.str "[1]")) .GLOBAL .USER initialState).1)).1) := by
  decide

/-- C4, amended: for every key other than the reserved `TARGET_KEY`, written
via `store2` into a partition whose `TARGET_KEY` entry is absent, empty, or
holds a serialized well-formed key-target map — the invariant of every state
reached without storing caller data under the reserved key — immediately
after the write `keys(partition, T)` contains the key and
`keys(partition, other)` does not.  Stated on the untyped JavaScript
embedding of the key-target pathway. -/
theorem keys_target_filtering_good_states (st : StorageState) (k : String) (v : Value)
    (scope : StorageScope) (t : StorageTarget) (hk : k ≠ TARGET_KEY)
    (hg : goodTargetText scope st) :
    k ∈ keysJs scope t ((store2Js k (some v) scope t st).1)
      ∧ k ∉ keysJs scope (otherTarget t) ((store2Js k (some v) scope t st).1) := by
  obtain ⟨mm, hnd, hm, _⟩ := getKeyTargetsJs_good scope st hg
  have ht := store2Js_targets k v scope t st mm hk hm hnd
  have hnd2 : nodupKeys (setL mm k t) = true := nodupKeys_setL mm k t hnd
  constructor
  · exact (mem_keysJs_targets scope t _ (setL mm k t) k ht hnd2).mpr
      (lookupL_setL_self mm k t)
  · intro hmem
    have h2 := (mem_keysJs_targets scope (otherTarget t) _ (setL mm k t) k ht hnd2).mp hmem
    rw [lookupL_setL_self] at h2
    cases t <;> simp [otherTarget] at h2

/-- C4, witness: a concrete instance of the amended statement from the
initial state. -/
theorem keys_target_filtering_good_states_witness :
    (("kk" : String) ≠ TARGET_KEY ∧ goodTargetText .GLOBAL initialState)
      ∧ ("kk" ∈ keysJs .GLOBAL .USER
            ((store2Js "kk" (some (.str "v")) .GLOBAL .USER initialState).1)
          ∧ "kk" ∉ keysJs .GLOBAL (otherTarget .USER)
              ((store2Js "kk" (some (.str "v")) .GLOBAL .USER initialState).1)) :=
  ⟨⟨by decide, by unfold goodTargetText; exact Or.inl rfl⟩,
    keys_target_filtering_good_states initialState "kk" (.str "v") .GLOBAL .USER
      (by decide) (by unfold goodTargetText; exact Or.inl rfl)⟩

/-- C6, counterexample: the exactly-once target-change signal fails in both
directions.  Storing text under the reserved `TARGET_KEY` itself, whose
recorded target is absent, emits two target-change events; and from the
reachable state where `TARGET_KEY` holds "[1]" — an array whose
re-serialization is unchanged by the added property — a `store2` of an
ordinary key with absent recorded target emits none at all. -/
theorem target_change_event_miscounts :
    countTargetChange .GLOBAL
        (store2Js TARGET_KEY (some (.str "x")) .GLOBAL .USER initialState).2 = 2
      ∧ ((jsGetProp (getKeyTargetsJs .GLOBAL
            ((store2Js TARGET_KEY (some (.str "[1]")) .GLOBAL .USER initialState).1))
            "k").isNone = true
          ∧ countTargetChange .GLOBAL
              (store2Js "k" (some (.str "v")) .GLOBAL .USER
                ((store2Js TARGET_KEY (some (.str "[1]")) .GLOBAL .USER
                  initialState).1)).2 = 0) := by
  decide

/-- C6, amended: for every key other than the reserved `TARGET_KEY`, in a
partition whose `TARGET_KEY` entry is absent, empty, or holds a serialized
well-formed key-target map: a `store2` whose key's recorded target is not
strictly equal to the given target emits exactly one target-change event;
removing a key whose recorded target is a number emits exactly one
target-change event; and repeating a `store2` with the same key, value, and
target emits no event.  Stated on the untyped JavaScript embedding of the
key-target pathway. -/
theorem target_change_event_exactly_once_good (st : StorageState) (k : String) (v : Value)
    (scope : StorageScope) (t : StorageTarget) (hk : k ≠ TARGET_KEY)
    (hg : goodTargetText scope st) :
    (jsStrictEqNum (jsGetProp (getKeyTargetsJs scope st) k) (targetNum t) = false →
        countTargetChange scope (store2Js k (some v) scope t st).2 = 1)
      ∧ (jsIsNumber (jsGetProp (getKeyTargetsJs scope st) k) = true →
          countTargetChange scope (removeJs k scope st).2 = 1)
      ∧ countTargetChange scope
          (store2Js k (some v) scope t ((store2Js k (some v) scope t st).1)).2 = 0 := by
  refine ⟨?_, ?_, ?_⟩
  · intro h1
    simp only [store2Js]
    rw [countTargetChange_append]
    have hA : countTargetChange scope (doStore k v scope st).2 = 0 := by
      rcases doStore_events_cases k v scope st with hA | hA
      · simp [hA, countTargetChange]
      · rw [hA, countTargetChange_fire]
        simp [hk]
    have h1b : jsStrictEqNum (jsGetProp (getKeyTargetsJs scope
          (doStore k v scope st).1) k) (targetNum t) = false := by
      rw [getKeyTargetsJs_doStore_ne _ _ _ _ hk]
      exact h1
    rw [hA, updateKeyTargetJs_set_fires k scope t _
      (goodTargetText_doStore_ne k v scope st hk hg) h1b, countTargetChange_fire]
    simp
  · intro h2
    simp only [removeJs]
    rw [countTargetChange_append]
    have hA : countTargetChange scope (doRemove k scope st).2 = 0 := by
      rcases doRemove_events_cases k scope st with hA | hA
      · simp [hA, countTargetChange]
      · rw [hA, countTargetChange_fire]
        simp [hk]
    have h2b : jsIsNumber (jsGetProp (getKeyTargetsJs scope
          (doRemove k scope st).1) k) = true := by
      rw [getKeyTargetsJs_doRemove_ne _ _ _ hk]
      exact h2
    rw [hA, updateKeyTargetJs_remove_fires k scope _
      (goodTargetText_doRemove_ne k scope st hk hg) h2b, countTargetChange_fire]
    simp
  · rw [store2Js_repeat_noop k v scope t st hk hg]
    rfl

/-- C6, witness: a key first written with target MACHINE, then retargeted to
USER and removed, from the well-formed state the first write produced. -/
theorem target_change_event_exactly_once_good_witness :
    (("kk" : String) ≠ TARGET_KEY
        ∧ goodTargetText .GLOBAL
            ((store2Js "kk" (some (.str "v")) .GLOBAL .MACHINE initialState).1)
        ∧ jsStrictEqNum (jsGetProp (getKeyTargetsJs .GLOBAL
              ((store2Js "kk" (some (.str "v")) .GLOBAL .MACHINE initialState).1)) "kk")
            (targetNum .USER) = false
        ∧ jsIsNumber (jsGetProp (getKeyTargetsJs .GLOBAL
              ((store2Js "kk" (some (.str "v")) .GLOBAL .MACHINE initialState).1)) "kk")
            = true)
      ∧ ((jsStrictEqNum (jsGetProp (getKeyTargetsJs .GLOBAL
              ((store2Js "kk" (some (.str "v")) .GLOBAL .MACHINE initialState).1)) "kk")
            (targetNum .USER) = false →
            countTargetChange .GLOBAL
              (store2Js "kk" (some (.str "w")) .GLOBAL .USER
                ((store2Js "kk" (some (.str "v")) .GLOBAL .MACHINE initialState).1)).2 = 1)
          ∧ (jsIsNumber (jsGetProp (getKeyTargetsJs .GLOBAL
                ((store2Js "kk" (some (.str "v")) .GLOBAL .MACHINE initialState).1)) "kk")
              = true →
              countTargetChange .GLOBAL
                (removeJs "kk" .GLOBAL
                  ((store2Js "kk" (some (.str "v")) .GLOBAL .MACHINE initialState).1)).2 = 1)
          ∧ countTargetChange .GLOBAL
              (store2Js "kk" (some (.str "w")) .GLOBAL .USER
                ((store2Js "kk" (some (.str "w")) .GLOBAL .USER
                  ((store2Js "kk" (some (.str "v")) .GLOBAL .MACHINE
                    initialState).1)).1)).2 = 0) :=
  ⟨⟨by decide,
      by
        unfold goodTargetText
        exact Or.inr (Or.inr ⟨[("kk", .MACHINE)], by decide, by decide⟩),
      by decide, by decide⟩,
    target_change_event_exactly_once_good
      ((store2Js "kk" (some (.str "v")) .GLOBAL .MACHINE initialState).1)
      "kk" (.str "w") .GLOBAL .USER (by decide)
      (by
        unfold goodTargetText
        exact Or.inr (Or.inr ⟨[("kk", .MACHINE)], by decide, by decide⟩))⟩

end VSCodeStorage
